import Mathlib

/-!
Shallow embedding of the mrks111/folder-organizer repository
(src/folder_organizer.py, called v1 below, and src/folder_organizer_v2.py,
called v2 below) together with theorems settling the frozen claims about
its specification.

Modelling conventions:
* File content is abstracted to a natural number; the SHA-256 digest of a
  file is modelled as that number (digest equality iff content equality,
  the collision risk the spec declares negligible).  A file additionally
  carries a `hashable` flag: v2 `compute_hash` returns `None` (here
  `Option.none`) when reading fails, v1 `compute_hash` lets the read
  error escape (modelled by propagating `none` as an abort).
* A filename is kept in the canonical split form produced by
  `os.path.splitext` / `pathlib` suffix extraction: a `stem` and an `ext`
  field whose concatenation is the on-disk name.  All names built by the
  scripts (counter-suffixed candidates, title-cased PDF names) stay in
  canonical form.
* A destination directory is a list of named files plus a list of
  subdirectory names; `Path.exists` is membership among either.
-/

set_option maxRecDepth 10000

namespace FolderOrganizer

/-- A file on disk: abstract byte content plus whether reading it
(for hashing) succeeds. -/
structure FsFile where
  content : Nat
  hashable : Bool
deriving DecidableEq

/-- A filename in canonical split form: stem plus extension
(the extension is either empty or starts with a dot, exactly as
`os.path.splitext` and `pathlib.Path.suffix` produce it). -/
structure FileName where
  stem : String
  ext : String
deriving DecidableEq

/-- The on-disk name: concatenation of stem and extension. -/
def FileName.name (n : FileName) : String := n.stem ++ n.ext

/-- Python `str.lower()` (ASCII, the range the scripts deal in).  The
core `String.toLower` is defined by well-founded recursion on byte
positions and does not reduce in the kernel, so the same map is taken
over the character list. -/
def lowerStr (s : String) : String := String.mk (s.toList.map Char.toLower)

/-- Python substring test `pat in s`. -/
def containsStr (s pat : String) : Bool :=
  s.toList.tails.any (fun t => pat.toList.isPrefixOf t)

/-- Does the character list start with a parenthesized digit group,
that is, a match of the regex `\(\d+\)` at its head. -/
def parenNumAt (l : List Char) : Bool :=
  match l with
  | '(' :: rest =>
    let ds := rest.takeWhile (fun c => c.isDigit)
    !ds.isEmpty &&
      (match rest.drop ds.length with
       | ')' :: _ => true
       | _ => false)
  | _ => false

/-- Python `re.search(r'\(\d+\)', s)`: some position of `s` starts a
parenthesized digit group. -/
def hasParenNum (s : String) : Bool :=
  s.toList.tails.any parenNumAt

/-- The category table of both scripts (identical in v1 and v2):
label and extension list, in iteration order. -/
def foldersTable : List (String × List String) :=
  [("1 - ARCHIVES", [".7z", ".bz2", ".dmp", ".gz", ".iso", ".rar", ".tar", ".torrent", ".xz", ".zip"]),
   ("2 - DOCUMENTS", [".bib", ".csv", ".dic", ".doc", ".docx", ".epub", ".htm", ".md", ".pages", ".ppt", ".pptx", ".ps", ".ris", ".ttl", ".txt", ".xls", ".xlsx"]),
   ("3 - IMAGES", [".bmp", ".gif", ".heic", ".jpeg", ".jpg", ".png", ".svg", ".tiff", ".webp"]),
   ("4 - PDFs", [".pdf"]),
   ("5 - VIDEOS", [".avi", ".flv", ".mkv", ".mov", ".mp4", ".wmv"]),
   ("6 - FOLDERS", []),
   ("7 - CODING", [".bat", ".c", ".cpp", ".css", ".gexf", ".har", ".html", ".java", ".js", ".json", ".php", ".ps1", ".py", ".sh", ".sqlite3", ".ts", ".tsx", ".xml", ".yaml", ".yml", ".ipynb"]),
   ("8 - INSTALLERS & APPLICATIONS", [".apk", ".bin", ".dll", ".dmg", ".exe", ".jar", ".msi"]),
   ("9 - SECURITY", [".cer"]),
   ("10 - OTHERS", [])]

/-- `defined_categories`: the set of category folder names. -/
def catNames : List String := foldersTable.map Prod.fst

/-- The classification loop shared by both scripts: iterate the table in
order, return the first label whose nonempty extension list contains the
given (lowercased) extension, else the fallback label `10 - OTHERS`. -/
def classifyDest (e : String) : String :=
  match foldersTable.find? (fun p => !p.2.isEmpty && p.2.contains e) with
  | some p => p.1
  | none => "10 - OTHERS"

/-- v1 classification (folder_organizer.py, main loop): the loop tests
`item.suffix.lower()` directly.  v1 also computes an `ext_lower` variable
with the ipynb override, but that variable is never used by the loop, so
the override has no effect in v1. -/
def classifyV1 (n : FileName) : String := classifyDest (lowerStr n.ext)

/-- v2 extension extraction with the ipynb override (folder_organizer_v2.py):
if the lowercased name contains `ipynb` and the lowercased suffix is not
`.ipynb`, the extension is treated as `.ipynb`. -/
def extLowerV2 (n : FileName) : String :=
  let e := lowerStr n.ext
  if containsStr (lowerStr n.name) "ipynb" = true ∧ e ≠ ".ipynb" then ".ipynb" else e

/-- v2 classification: the loop tests the overridden `ext_lower`. -/
def classifyV2 (n : FileName) : String := classifyDest (extLowerV2 n)

example : classifyV2 ⟨"notes_ipynb", ""⟩ = "7 - CODING" := by decide
example : classifyV1 ⟨"notes_ipynb", ""⟩ = "10 - OTHERS" := by decide
example : classifyV1 ⟨"a", ".pdf"⟩ = "4 - PDFs" := by decide
example : hasParenNum "a_1" = false := by decide
example : hasParenNum "a (12)" = true := by decide
example : containsStr "my_ipynb_file" "ipynb" = true := by decide

/-- Python `str.title()` over a character list (ASCII): a cased character
is uppercased when the previous character is not cased, lowercased
otherwise.  The Boolean argument records whether the previous character
was cased. -/
def pyTitleGo : Bool → List Char → List Char
  | _, [] => []
  | prevCased, c :: cs =>
    if c.isAlpha then
      (if prevCased then c.toLower else c.toUpper) :: pyTitleGo true cs
    else c :: pyTitleGo false cs

/-- Python `str.title()`. -/
def pyTitle (s : String) : String := String.mk (pyTitleGo false s.toList)

/-- `get_target_filename` (identical in v1 and v2): title-case the stem
and lowercase the extension when the suffix is `.pdf`, otherwise keep the
name unchanged. -/
def getTargetFilename (n : FileName) : FileName :=
  if lowerStr n.ext = ".pdf" then ⟨pyTitle n.stem, lowerStr n.ext⟩ else n

example : getTargetFilename ⟨"my-report", ".PDF"⟩ = ⟨"My-Report", ".pdf"⟩ := by decide

/-- A destination directory: the files it holds (name and content) and
the names of its subdirectories. -/
structure CatDir where
  files : List (FileName × FsFile)
  dirs : List String
deriving DecidableEq

/-- Look up a file by name in a directory. -/
def CatDir.findFile (d : CatDir) (n : FileName) : Option FsFile :=
  (d.files.find? (fun p => decide (p.1 = n))).map Prod.snd

/-- `(dest_folder / name).exists()`: a file or a subdirectory with this
name is present. -/
def existsIn (d : CatDir) (n : FileName) : Bool :=
  (d.findFile n).isSome || d.dirs.contains n.name

/-- `(dest_parent / s).exists()` for a raw name string (used by
`move_folder`): a file or a subdirectory whose on-disk name is `s`. -/
def existsName (d : CatDir) (s : String) : Bool :=
  d.files.any (fun p => decide (p.1.name = s)) || d.dirs.contains s

/-- Add a file to a directory (`shutil.move` into it). -/
def insertFile (d : CatDir) (n : FileName) (f : FsFile) : CatDir :=
  { d with files := d.files ++ [(n, f)] }

/-- v2 `compute_hash`: the digest, or `None` when reading fails. -/
def computeHashV2 (f : FsFile) : Option Nat :=
  if f.hashable then some f.content else none

/-- v2 `compute_hash(dest_folder / n)`: hashing an existing subdirectory
raises `IsADirectoryError`, an `OSError`, which v2 catches and turns into
`None`; a missing path likewise gives `None` via the caught `IOError`. -/
def hashAtV2 (d : CatDir) (n : FileName) : Option Nat :=
  (d.findFile n).bind computeHashV2

/-- v1 `compute_hash`: no exception handling, so an unreadable file (or a
directory) lets the error escape; `none` models the escaping exception
and aborts the surrounding computation. -/
def computeHashV1 (f : FsFile) : Option Nat :=
  if f.hashable then some f.content else none

/-- v1 hashing of an existing path inside a directory; `none` is an
escaping exception. -/
def hashAtV1 (d : CatDir) (n : FileName) : Option Nat :=
  (d.findFile n).bind computeHashV1

/-- The counter-suffixed candidate name `f"{stem}_{counter}{ext}"`. -/
def candName (stem : String) (k : Nat) (ext : String) : FileName :=
  ⟨stem ++ "_" ++ Nat.repr k, ext⟩

/-- Outcome of one `move_and_rename_file` call. -/
inductive MoveOutcome where
  | movedTo (n : FileName)
  | deletedDup
deriving DecidableEq

/-- v1 disambiguation loop (folder_organizer.py lines 48-59): for each
counter in turn, if the candidate exists compare its digest with the
digest of the source (equal: delete the source and stop; different: next
counter), else the candidate becomes the target.  First result component
`true` means the source was deleted at the probed candidate (second
component).  Recursion is fuelled; `none` is fuel exhaustion or an
escaping hash exception. -/
def disambigV1 (d : CatDir) (srcDigest : Nat) (stem ext : String) :
    Nat → Nat → Option (Bool × FileName)
  | 0, _ => none
  | fuel + 1, k =>
    if existsIn d (candName stem k ext) then
      match hashAtV1 d (candName stem k ext) with
      | none => none
      | some hc =>
        if hc = srcDigest then some (true, candName stem k ext)
        else disambigV1 d srcDigest stem ext fuel (k + 1)
    else some (false, candName stem k ext)

/-- v2 disambiguation loop (folder_organizer_v2.py lines 204-210): the
first non-existing counter-suffixed candidate, with no digest
comparison.  Fuelled; `none` is fuel exhaustion. -/
def firstFreeV2 (d : CatDir) (stem ext : String) : Nat → Nat → Option FileName
  | 0, _ => none
  | fuel + 1, k =>
    if existsIn d (candName stem k ext) then firstFreeV2 d stem ext fuel (k + 1)
    else some (candName stem k ext)

/-- v1 `move_and_rename_file`: returns the updated destination directory
and the outcome; the source file is removed by the caller in either
outcome (the move takes it, or `src.unlink()` deleted it).  `none` is
fuel exhaustion or an escaping `compute_hash` exception. -/
def moveRenameV1 (src : FileName × FsFile) (d : CatDir) (fuel : Nat) :
    Option (CatDir × MoveOutcome) :=
  let base := getTargetFilename src.1
  if existsIn d base then
    match hashAtV1 d base, computeHashV1 src.2 with
    | some ht, some hs =>
      if ht = hs then some (d, .deletedDup)
      else
        match disambigV1 d hs base.stem base.ext fuel 1 with
        | none => none
        | some (true, _) => some (d, .deletedDup)
        | some (false, n) => some (insertFile d n src.2, .movedTo n)
    | _, _ => none
  else some (insertFile d base src.2, .movedTo base)

/-- v2 `move_and_rename_file`: as v1 but hash failures are `None` values
compared with `==` (so `None == None` holds), and the disambiguation
loop does no digest comparison.  `none` is fuel exhaustion only. -/
def moveRenameV2 (src : FileName × FsFile) (d : CatDir) (fuel : Nat) :
    Option (CatDir × MoveOutcome) :=
  let base := getTargetFilename src.1
  if existsIn d base then
    if hashAtV2 d base = computeHashV2 src.2 then some (d, .deletedDup)
    else
      match firstFreeV2 d base.stem base.ext fuel 1 with
      | none => none
      | some n => some (insertFile d n src.2, .movedTo n)
  else some (insertFile d base src.2, .movedTo base)

/-- Characterization of the v2 disambiguation loop: a returned name is
free, is a counter-suffixed candidate at some index at or above the
starting counter, and every candidate at a smaller index (from the start)
exists.  No digest is ever consulted. -/
theorem firstFreeV2_spec (d : CatDir) (stem ext : String) :
    ∀ fuel k n, firstFreeV2 d stem ext fuel k = some n →
      existsIn d n = false ∧
      ∃ j, k ≤ j ∧ n = candName stem j ext ∧
        ∀ i, k ≤ i → i < j → existsIn d (candName stem i ext) = true := by
  intro fuel
  induction fuel with
  | zero => intro k n hn; simp [firstFreeV2] at hn
  | succ m ih =>
    intro k n hn
    rw [firstFreeV2] at hn
    by_cases hex : existsIn d (candName stem k ext) = true
    · rw [if_pos hex] at hn
      obtain ⟨h1, j, hkj, hj, hall⟩ := ih (k + 1) n hn
      refine ⟨h1, j, by omega, hj, ?_⟩
      intro i hki hij
      by_cases hik : i = k
      · subst hik; exact hex
      · exact hall i (by omega) hij
    · rw [if_neg hex] at hn
      cases hn
      refine ⟨by simpa using hex, k, le_refl k, rfl, ?_⟩
      intro i h1 h2; omega

/-- Characterization of the v1 disambiguation loop: when the source is
deleted, the probed candidate exists and its digest equals the source
digest; when a move target is returned, it is free, it is the candidate
at some index at or above the starting counter, and every candidate at a
smaller index exists with a digest different from the source digest. -/
theorem disambigV1_spec (d : CatDir) (h : Nat) (stem ext : String) :
    ∀ fuel k r, disambigV1 d h stem ext fuel k = some r →
      (r.1 = true → existsIn d r.2 = true ∧ hashAtV1 d r.2 = some h) ∧
      (r.1 = false → existsIn d r.2 = false ∧
        ∃ j, k ≤ j ∧ r.2 = candName stem j ext ∧
          ∀ i, k ≤ i → i < j → existsIn d (candName stem i ext) = true ∧
            hashAtV1 d (candName stem i ext) ≠ some h) := by
  intro fuel
  induction fuel with
  | zero => intro k r hr; simp [disambigV1] at hr
  | succ m ih =>
    intro k r hr
    rw [disambigV1] at hr
    split at hr
    case isTrue hex =>
      split at hr
      case h_1 => exact absurd hr (by simp)
      case h_2 hc hh =>
        split at hr
        case isTrue heq =>
          cases hr
          constructor
          · intro _; exact ⟨hex, by rw [hh, heq]⟩
          · intro hfalse; simp at hfalse
        case isFalse heq =>
          obtain ⟨ht, hf⟩ := ih (k + 1) r hr
          refine ⟨ht, ?_⟩
          intro hr1
          obtain ⟨h1, j, hkj, hj, hall⟩ := hf hr1
          refine ⟨h1, j, by omega, hj, ?_⟩
          intro i hki hij
          by_cases hik : i = k
          · subst hik
            refine ⟨hex, ?_⟩
            rw [hh]
            exact fun hcon => heq (Option.some.inj hcon)
          · exact hall i (by omega) hij
    case isFalse hex =>
      cases hr
      constructor
      · intro h1; simp at h1
      · intro _
        refine ⟨by simpa using hex, k, le_refl k, rfl, ?_⟩
        intro i h1 h2; omega

/-- A name absent as a file: `find?` fails on every entry. -/
theorem findFile_none_iff (d : CatDir) (n : FileName) :
    d.findFile n = none ↔ ∀ p ∈ d.files, p.1 ≠ n := by
  unfold CatDir.findFile
  rw [Option.map_eq_none']
  rw [List.find?_eq_none]
  constructor
  · intro hf p hp
    have := hf p hp
    simpa using this
  · intro hf p hp
    simpa using hf p hp

/-- Unfolding of a false existence check into its two components. -/
theorem existsIn_false_parts (d : CatDir) (n : FileName)
    (h : existsIn d n = false) :
    d.findFile n = none ∧ d.dirs.contains n.name = false := by
  unfold existsIn at h
  rw [Bool.or_eq_false_iff] at h
  refine ⟨?_, h.2⟩
  have h1 := h.1
  cases hf : d.findFile n with
  | none => rfl
  | some f => rw [hf] at h1; simp at h1

/-- Inserting a fresh file makes it findable. -/
theorem findFile_insert_self (d : CatDir) (n : FileName) (f : FsFile)
    (h : d.findFile n = none) : (insertFile d n f).findFile n = some f := by
  unfold CatDir.findFile insertFile at *
  rw [Option.map_eq_none'] at h
  simp only [List.find?_append, h]
  simp

/-- Inserting a fresh file makes the existence check succeed. -/
theorem existsIn_insert_self (d : CatDir) (n : FileName) (f : FsFile)
    (h : d.findFile n = none) : existsIn (insertFile d n f) n = true := by
  unfold existsIn
  rw [findFile_insert_self d n f h]
  simp

section ClaimC1

/-- The destination folder of the C1 counterexample: the desired name
`a.txt` holds content 1, the disambiguated copy `a_1.txt` holds
content 2; the incoming source `a.txt` has content 2, identical to the
existing candidate `a_1.txt`. -/
def c1dest : CatDir :=
  ⟨[(⟨"a", ".txt"⟩, ⟨1, true⟩), (⟨"a_1", ".txt"⟩, ⟨2, true⟩)], []⟩

/-- C1, counterexample: in v2 `move_and_rename_file`, the existing
candidate `a_1.txt` has the same digest as the source, yet the source is
not deleted: it is moved to `a_2.txt`.  The claimed candidate digest
check does not happen in folder_organizer_v2.py. -/
theorem c1_counterexample_v2_candidate_digest_ignored :
    existsIn c1dest ⟨"a_1", ".txt"⟩ = true ∧
    hashAtV2 c1dest ⟨"a_1", ".txt"⟩ = computeHashV2 ⟨2, true⟩ ∧
    hashAtV2 c1dest ⟨"a", ".txt"⟩ ≠ computeHashV2 ⟨2, true⟩ ∧
    moveRenameV2 (⟨"a", ".txt"⟩, ⟨2, true⟩) c1dest 9 =
      some (insertFile c1dest ⟨"a_2", ".txt"⟩ ⟨2, true⟩,
        MoveOutcome.movedTo ⟨"a_2", ".txt"⟩) ∧
    moveRenameV2 (⟨"a", ".txt"⟩, ⟨2, true⟩) c1dest 9 ≠
      some (c1dest, MoveOutcome.deletedDup) := by
  refine ⟨by decide, by decide, by decide, by decide, by decide⟩

/-- C1, amended: the candidate digest check is performed by v1
(folder_organizer.py) only.  (i) In the v1 loop, a deletion happens
exactly at an existing candidate whose digest equals the source digest,
and a returned move target is the first non-existing candidate, every
earlier candidate existing with a different digest.  (ii) In v2
(folder_organizer_v2.py), a deletion only ever happens at the desired
base name itself (digest equality there), and (iii) the v2 loop moves
the source to the first non-existing candidate with no digest
comparison. -/
theorem c1_amended_disambiguation_loops :
    (∀ (d : CatDir) (h : Nat) (stem ext : String) (fuel k : Nat)
        (r : Bool × FileName), disambigV1 d h stem ext fuel k = some r →
      (r.1 = true → existsIn d r.2 = true ∧ hashAtV1 d r.2 = some h) ∧
      (r.1 = false → existsIn d r.2 = false ∧
        ∃ j, k ≤ j ∧ r.2 = candName stem j ext ∧
          ∀ i, k ≤ i → i < j → existsIn d (candName stem i ext) = true ∧
            hashAtV1 d (candName stem i ext) ≠ some h)) ∧
    (∀ (src : FileName × FsFile) (d : CatDir) (fuel : Nat)
        (res : CatDir × MoveOutcome),
      moveRenameV2 src d fuel = some res →
      res.2 = MoveOutcome.deletedDup →
        res.1 = d ∧
        hashAtV2 d (getTargetFilename src.1) = computeHashV2 src.2) ∧
    (∀ (d : CatDir) (stem ext : String) (fuel k : Nat) (n : FileName),
      firstFreeV2 d stem ext fuel k = some n →
        existsIn d n = false ∧
        ∃ j, k ≤ j ∧ n = candName stem j ext ∧
          ∀ i, k ≤ i → i < j → existsIn d (candName stem i ext) = true) := by
  refine ⟨fun d h stem ext fuel k r hr => disambigV1_spec d h stem ext fuel k r hr,
    ?_, fun d stem ext fuel k n hn => firstFreeV2_spec d stem ext fuel k n hn⟩
  intro src d fuel res hres hdel
  simp only [moveRenameV2] at hres
  split at hres
  case isTrue hex =>
    split at hres
    case isTrue hh =>
      cases hres
      exact ⟨rfl, hh⟩
    case isFalse hh =>
      split at hres
      case h_1 => exact absurd hres (by simp)
      case h_2 n hff =>
        cases hres
        simp at hdel
  case isFalse hex =>
    cases hres
    simp at hdel

/-- Witness for `c1_amended_disambiguation_loops` at concrete inputs. -/
theorem c1_amended_disambiguation_loops_witness :
    (existsIn c1dest ⟨"a_1", ".txt"⟩ = true ∧
      hashAtV1 c1dest ⟨"a_1", ".txt"⟩ = some 2) ∧
    (c1dest = c1dest ∧
      hashAtV2 c1dest ⟨"a", ".txt"⟩ = computeHashV2 ⟨1, true⟩) ∧
    (existsIn c1dest ⟨"a_2", ".txt"⟩ = false) := by
  refine ⟨?_, ?_, ?_⟩
  · exact (c1_amended_disambiguation_loops.1 c1dest 2 "a" ".txt" 9 1
      (true, ⟨"a_1", ".txt"⟩) (by decide)).1 rfl
  · exact c1_amended_disambiguation_loops.2.1 (⟨"a", ".txt"⟩, ⟨1, true⟩) c1dest 9
      (c1dest, MoveOutcome.deletedDup) (by decide) rfl
  · exact (c1_amended_disambiguation_loops.2.2 c1dest "a" ".txt" 9 1
      ⟨"a_2", ".txt"⟩ (by decide)).1

end ClaimC1

section ClaimC2

/-- The destination folder of the C2 failing input: the desired name
`report.txt` exists but cannot be read (its hash is `None`). -/
def c2dest : CatDir := ⟨[(⟨"report", ".txt"⟩, ⟨7, false⟩)], []⟩

/-- C2, code bug: an unhashable source file (hash `None`) whose desired
target name exists and is also unhashable is deleted as a duplicate by
v2 `move_and_rename_file`, because Python `None == None` is true at
line 198 of folder_organizer_v2.py.  The spec requires an unhashable
source never to be deleted. -/
theorem c2_unhashable_source_deleted_bug :
    computeHashV2 ⟨5, false⟩ = none ∧
    hashAtV2 c2dest ⟨"report", ".txt"⟩ = none ∧
    moveRenameV2 (⟨"report", ".txt"⟩, ⟨5, false⟩) c2dest 9 =
      some (c2dest, MoveOutcome.deletedDup) := by
  refine ⟨by decide, by decide, by decide⟩

end ClaimC2

section ClaimC5

/-- C5, code bug in v1: the file `notes_ipynb` (no literal `.ipynb`
suffix, name containing the marker `ipynb`) must be routed to the coding
category per the claim.  v2 does so; v1 computes the override into an
unused variable and classifies by the raw suffix, routing the file to
the fallback `10 - OTHERS` instead. -/
theorem c5_ipynb_override_ignored_in_v1 :
    containsStr (lowerStr (FileName.name ⟨"notes_ipynb", ""⟩)) "ipynb" = true ∧
    lowerStr (FileName.ext ⟨"notes_ipynb", ""⟩) ≠ ".ipynb" ∧
    extLowerV2 ⟨"notes_ipynb", ""⟩ = ".ipynb" ∧
    classifyV2 ⟨"notes_ipynb", ""⟩ = "7 - CODING" ∧
    classifyV1 ⟨"notes_ipynb", ""⟩ = "10 - OTHERS" := by
  refine ⟨by decide, by decide, by decide, by decide, by decide⟩

end ClaimC5

section ClaimC7

/-- C7: placing two files with identical content and the same resolved
target name into the same destination folder: the first is moved to the
target name, the second is deleted as a duplicate, the folder is left
exactly as after the first placement, and exactly one file with the
target name is present.  Proved for both v1 and v2. -/
theorem c7_identical_same_name_dedup (d : CatDir) (n₁ n₂ : FileName)
    (f₁ f₂ : FsFile) (fuel₁ fuel₂ : Nat)
    (hn : getTargetFilename n₂ = getTargetFilename n₁)
    (hex : existsIn d (getTargetFilename n₁) = false)
    (h₁ : f₁.hashable = true) (h₂ : f₂.hashable = true)
    (hc : f₁.content = f₂.content) :
    moveRenameV2 (n₁, f₁) d fuel₁ =
      some (insertFile d (getTargetFilename n₁) f₁,
        MoveOutcome.movedTo (getTargetFilename n₁)) ∧
    moveRenameV2 (n₂, f₂) (insertFile d (getTargetFilename n₁) f₁) fuel₂ =
      some (insertFile d (getTargetFilename n₁) f₁, MoveOutcome.deletedDup) ∧
    moveRenameV1 (n₁, f₁) d fuel₁ =
      some (insertFile d (getTargetFilename n₁) f₁,
        MoveOutcome.movedTo (getTargetFilename n₁)) ∧
    moveRenameV1 (n₂, f₂) (insertFile d (getTargetFilename n₁) f₁) fuel₂ =
      some (insertFile d (getTargetFilename n₁) f₁, MoveOutcome.deletedDup) ∧
    (insertFile d (getTargetFilename n₁) f₁).files.countP
      (fun p => decide (p.1 = getTargetFilename n₁)) = 1 := by
  have hfnone : d.findFile (getTargetFilename n₁) = none :=
    (existsIn_false_parts d _ hex).1
  have hfind : (insertFile d (getTargetFilename n₁) f₁).findFile
      (getTargetFilename n₁) = some f₁ := findFile_insert_self d _ f₁ hfnone
  have hex' : existsIn (insertFile d (getTargetFilename n₁) f₁)
      (getTargetFilename n₁) = true := existsIn_insert_self d _ f₁ hfnone
  refine ⟨?_, ?_, ?_, ?_, ?_⟩
  · simp only [moveRenameV2]
    rw [if_neg (by simp [hex])]
  · simp only [moveRenameV2]
    rw [hn, if_pos hex']
    have hh1 : hashAtV2 (insertFile d (getTargetFilename n₁) f₁)
        (getTargetFilename n₁) = computeHashV2 f₂ := by
      simp [hashAtV2, hfind, computeHashV2, h₁, h₂, hc]
    rw [hh1]
    simp
  · simp only [moveRenameV1]
    rw [if_neg (by simp [hex])]
  · simp only [moveRenameV1]
    rw [hn, if_pos hex']
    have hh1 : hashAtV1 (insertFile d (getTargetFilename n₁) f₁)
        (getTargetFilename n₁) = some f₂.content := by
      simp [hashAtV1, hfind, computeHashV1, h₁, hc]
    have hh2 : computeHashV1 f₂ = some f₂.content := by
      simp [computeHashV1, h₂]
    rw [hh1, hh2]
    simp
  · unfold insertFile
    simp only [List.countP_append]
    have hz : d.files.countP (fun p => decide (p.1 = getTargetFilename n₁)) = 0 := by
      apply List.countP_eq_zero.mpr
      intro p hp
      have := (findFile_none_iff d (getTargetFilename n₁)).mp hfnone p hp
      simpa using this
    rw [hz]
    simp

/-- Witness for `c7_identical_same_name_dedup` at a concrete input. -/
theorem c7_identical_same_name_dedup_witness :
    moveRenameV2 (⟨"b", ".txt"⟩, ⟨3, true⟩) ⟨[], []⟩ 4 =
      some (insertFile ⟨[], []⟩ ⟨"b", ".txt"⟩ ⟨3, true⟩,
        MoveOutcome.movedTo ⟨"b", ".txt"⟩) ∧
    moveRenameV2 (⟨"b", ".txt"⟩, ⟨3, true⟩)
        (insertFile ⟨[], []⟩ ⟨"b", ".txt"⟩ ⟨3, true⟩) 4 =
      some (insertFile ⟨[], []⟩ ⟨"b", ".txt"⟩ ⟨3, true⟩,
        MoveOutcome.deletedDup) := by
  have h := c7_identical_same_name_dedup ⟨[], []⟩ ⟨"b", ".txt"⟩ ⟨"b", ".txt"⟩
    ⟨3, true⟩ ⟨3, true⟩ 4 4 rfl (by decide) rfl rfl rfl
  have hg : getTargetFilename ⟨"b", ".txt"⟩ = ⟨"b", ".txt"⟩ := by decide
  refine ⟨?_, ?_⟩
  · have := h.1; rwa [hg] at this
  · have := h.2.1; rwa [hg] at this

end ClaimC7

/-- A file met by the recursive scan `base_folder.rglob('*')` of
`handle_duplicates` (folder_organizer_v2.py): the directory components of
its path relative to the base folder, its final name, and its content.
Directories yielded by `rglob` are dropped by the `is_file()` test and
are not modelled. -/
structure ScanFile where
  parents : List String
  fname : FileName
  file : FsFile
deriving DecidableEq

/-- `item.relative_to(base_folder).parts`: every component of the
relative path, the final filename included. -/
def ScanFile.parts (s : ScanFile) : List String :=
  s.parents ++ [s.fname.name]

/-- The `continue` test of `handle_duplicates` (v2 line 144): the item is
skipped iff SOME component of its relative path is a category folder
name. -/
def inCategoryParts (s : ScanFile) : Bool :=
  s.parts.any (fun part => catNames.contains part)

/-- `hashes[file_hash].append(item)` on a `defaultdict(list)`: append the
item to the group of its digest, creating the group at the end in
insertion order. -/
def addToGroups (gs : List (Nat × List ScanFile)) (h : Nat) (s : ScanFile) :
    List (Nat × List ScanFile) :=
  if gs.any (fun g => decide (g.1 = h)) then
    gs.map (fun g => if g.1 = h then (g.1, g.2 ++ [s]) else g)
  else gs ++ [(h, [s])]

/-- The scan loop of `handle_duplicates` (v2 lines 142-150): group the
non-skipped files by digest; a file whose hash is `None` is dropped by
the `if file_hash:` test. -/
def gatherStep (gs : List (Nat × List ScanFile)) (s : ScanFile) :
    List (Nat × List ScanFile) :=
  if inCategoryParts s then gs
  else
    match computeHashV2 s.file with
    | some h => addToGroups gs h s
    | none => gs

def gatherHashes (items : List ScanFile) : List (Nat × List ScanFile) :=
  items.foldl gatherStep []

/-- The kept representatives of one digest group (v2 lines 156-159):
every file whose stem does not match `\(\d+\)`; if there is none, the
first file of the group. -/
def dedupOriginals (group : List ScanFile) : List ScanFile :=
  if (group.filter (fun p => ! (hasParenNum p.fname.stem))).isEmpty then group.take 1
  else group.filter (fun p => ! (hasParenNum p.fname.stem))

/-- The files deleted from one digest group (v2 line 162): every file of
the group not among the kept representatives. -/
def dedupToDelete (group : List ScanFile) : List ScanFile :=
  group.filter (fun p => decide (p ∉ dedupOriginals group))

/-- The list of files `handle_duplicates` deletes over the whole scan
(groups of size one are left alone). -/
def handleDuplicatesDeleted (items : List ScanFile) : List ScanFile :=
  (gatherHashes items).foldl
    (fun acc g => if g.2.length > 1 then acc ++ dedupToDelete g.2 else acc) []

/-- The count `handle_duplicates` returns (every unlink succeeding). -/
def handleDuplicates (items : List ScanFile) : Nat :=
  (handleDuplicatesDeleted items).length

section ClaimC3

/-- The three identical-content files `a.txt`, `a_1.txt`, `a_2.txt` at
the top of the scanned tree. -/
def c3items : List ScanFile :=
  [⟨[], ⟨"a", ".txt"⟩, ⟨1, true⟩⟩,
   ⟨[], ⟨"a_1", ".txt"⟩, ⟨1, true⟩⟩,
   ⟨[], ⟨"a_2", ".txt"⟩, ⟨1, true⟩⟩]

/-- C3, counterexample: on three identical-content files `a.txt`,
`a_1.txt`, `a_2.txt`, the Global Duplicate Finder deletes nothing — the
`(\d+)` marker pattern matches none of the underscore-suffixed stems, so
all three are kept as originals, not just `a.txt`. -/
theorem c3_counterexample_underscore_copies_kept :
    gatherHashes c3items = [(1, c3items)] ∧
    (1 : Nat) < c3items.length ∧
    handleDuplicatesDeleted c3items = [] ∧
    handleDuplicates c3items = 0 ∧
    hasParenNum "a_1" = false ∧ hasParenNum "a_2" = false := by
  refine ⟨by decide, by decide, by decide, by decide, by decide, by decide⟩

/-- C3, amended: the marker the Global Duplicate Finder looks for is a
parenthesized number in the stem, not an underscore counter suffix.  In
every digest group of size greater than one, all files without that
marker are kept (so several representatives can be kept), a deleted file
always carries the marker, and only when every file carries the marker is
the group reduced to its first file; on the concrete `a.txt`, `a_1.txt`,
`a_2.txt` group nothing at all is deleted. -/
theorem c3_amended_marker_retention (group : List ScanFile)
    (_hlen : 1 < group.length) :
    (∀ p ∈ group, hasParenNum p.fname.stem = false →
      p ∈ dedupOriginals group ∧ p ∉ dedupToDelete group) ∧
    (∀ p ∈ dedupToDelete group, p ∈ group ∧ hasParenNum p.fname.stem = true) ∧
    ((∀ p ∈ group, hasParenNum p.fname.stem = true) →
      dedupOriginals group = group.take 1) ∧
    dedupToDelete c3items = [] := by
  refine ⟨?_, ?_, ?_, by decide⟩
  · intro p hp hmark
    have hporig : p ∈ dedupOriginals group := by
      unfold dedupOriginals
      have hpf : p ∈ group.filter (fun p => ! (hasParenNum p.fname.stem)) :=
        List.mem_filter.mpr ⟨hp, by rw [hmark]; rfl⟩
      rw [if_neg ?_]
      · exact hpf
      · intro hemp
        rw [List.isEmpty_iff] at hemp
        rw [hemp] at hpf
        exact absurd hpf (List.not_mem_nil p)
    refine ⟨hporig, ?_⟩
    intro hdel
    have := (List.mem_filter.mp hdel).2
    simp at this
    exact this hporig
  · intro p hdel
    have h1 := List.mem_filter.mp hdel
    refine ⟨h1.1, ?_⟩
    by_contra hmark
    have hmark' : hasParenNum p.fname.stem = false := by
      cases hb : hasParenNum p.fname.stem
      · rfl
      · exact absurd hb hmark
    have hporig : p ∈ dedupOriginals group := by
      unfold dedupOriginals
      have hpf : p ∈ group.filter (fun p => ! (hasParenNum p.fname.stem)) :=
        List.mem_filter.mpr ⟨h1.1, by rw [hmark']; rfl⟩
      rw [if_neg ?_]
      · exact hpf
      · intro hemp
        rw [List.isEmpty_iff] at hemp
        rw [hemp] at hpf
        exact absurd hpf (List.not_mem_nil p)
    have := h1.2
    simp at this
    exact this hporig
  · intro hall
    unfold dedupOriginals
    rw [if_pos ?_]
    rw [List.isEmpty_iff]
    apply List.filter_eq_nil_iff.mpr
    intro p hp
    rw [hall p hp]
    simp

/-- Witness for `c3_amended_marker_retention` at the concrete group. -/
theorem c3_amended_marker_retention_witness :
    (⟨[], ⟨"a", ".txt"⟩, ⟨1, true⟩⟩ : ScanFile) ∈ dedupOriginals c3items ∧
    (⟨[], ⟨"a", ".txt"⟩, ⟨1, true⟩⟩ : ScanFile) ∉ dedupToDelete c3items := by
  exact (c3_amended_marker_retention c3items (by decide)).1
    ⟨[], ⟨"a", ".txt"⟩, ⟨1, true⟩⟩ (by decide) (by decide)

end ClaimC3

section ClaimC10

/-- C10, confirmed: in every nonempty digest group the kept set is
nonempty, is part of the group, and is disjoint from the deleted set, so
at least one copy of the content always survives; moreover every
unmarked file is kept, and when every file is marked the first file of
the group is kept. -/
theorem c10_group_never_emptied (group : List ScanFile) (hne : group ≠ []) :
    dedupOriginals group ≠ [] ∧
    (∀ p ∈ dedupOriginals group, p ∈ group) ∧
    (∀ p ∈ dedupOriginals group, p ∉ dedupToDelete group) ∧
    ((∀ p ∈ group, hasParenNum p.fname.stem = true) →
      group.head hne ∈ dedupOriginals group) ∧
    (∀ p ∈ group, hasParenNum p.fname.stem = false → p ∈ dedupOriginals group) := by
  refine ⟨?_, ?_, ?_, ?_, ?_⟩
  · unfold dedupOriginals
    split
    case isTrue =>
      cases group with
      | nil => exact absurd rfl hne
      | cons g rest => simp
    case isFalse hflt =>
      intro hnil
      rw [List.isEmpty_iff] at hflt
      exact hflt hnil
  · intro p hp
    unfold dedupOriginals at hp
    split at hp
    · exact List.mem_of_mem_take hp
    · exact (List.mem_filter.mp hp).1
  · intro p hp hdel
    have := (List.mem_filter.mp hdel).2
    simp at this
    exact this hp
  · intro hall
    unfold dedupOriginals
    rw [if_pos ?_]
    · cases group with
      | nil => exact absurd rfl hne
      | cons g rest => simp
    · rw [List.isEmpty_iff]
      apply List.filter_eq_nil_iff.mpr
      intro p hp
      rw [hall p hp]
      simp
  · intro p hp hmark
    unfold dedupOriginals
    have hpf : p ∈ group.filter (fun p => ! (hasParenNum p.fname.stem)) :=
      List.mem_filter.mpr ⟨hp, by rw [hmark]; rfl⟩
    rw [if_neg ?_]
    · exact hpf
    · intro hemp
      rw [List.isEmpty_iff] at hemp
      rw [hemp] at hpf
      exact absurd hpf (List.not_mem_nil p)

/-- Witness for `c10_group_never_emptied` at a concrete group in which
every stem carries the parenthesized marker. -/
theorem c10_group_never_emptied_witness :
    dedupOriginals [(⟨[], ⟨"b (1)", ".txt"⟩, ⟨2, true⟩⟩ : ScanFile),
      ⟨[], ⟨"b (2)", ".txt"⟩, ⟨2, true⟩⟩] ≠ [] ∧
    (⟨[], ⟨"b (1)", ".txt"⟩, ⟨2, true⟩⟩ : ScanFile) ∈
      dedupOriginals [(⟨[], ⟨"b (1)", ".txt"⟩, ⟨2, true⟩⟩ : ScanFile),
        ⟨[], ⟨"b (2)", ".txt"⟩, ⟨2, true⟩⟩] := by
  have h := c10_group_never_emptied
    [(⟨[], ⟨"b (1)", ".txt"⟩, ⟨2, true⟩⟩ : ScanFile),
      ⟨[], ⟨"b (2)", ".txt"⟩, ⟨2, true⟩⟩] (by decide)
  exact ⟨h.1, h.2.2.2.1 (by decide)⟩

end ClaimC10

/-- A file belongs to some digest group. -/
def inSomeGroup (gs : List (Nat × List ScanFile)) (s : ScanFile) : Prop :=
  ∃ g ∈ gs, s ∈ g.2

/-- Appending a file to its digest group adds exactly that file to the
grouped files. -/
theorem addToGroups_mem (gs : List (Nat × List ScanFile)) (h : Nat)
    (x s : ScanFile) :
    inSomeGroup (addToGroups gs h x) s ↔ inSomeGroup gs s ∨ s = x := by
  unfold addToGroups inSomeGroup
  split
  case isTrue hkey =>
    constructor
    · rintro ⟨g', hg', hs⟩
      rcases List.mem_map.mp hg' with ⟨g, hg, rfl⟩
      by_cases hgh : g.1 = h
      · rw [if_pos hgh] at hs
        rcases List.mem_append.mp hs with h1 | h1
        · exact Or.inl ⟨g, hg, h1⟩
        · exact Or.inr (by simpa using h1)
      · rw [if_neg hgh] at hs
        exact Or.inl ⟨g, hg, hs⟩
    · rintro (⟨g, hg, hs⟩ | rfl)
      · refine ⟨if g.1 = h then (g.1, g.2 ++ [x]) else g,
          List.mem_map_of_mem _ hg, ?_⟩
        by_cases hgh : g.1 = h
        · rw [if_pos hgh]
          exact List.mem_append_left _ hs
        · rw [if_neg hgh]
          exact hs
      · rcases List.any_eq_true.mp hkey with ⟨g, hg, hgh⟩
        simp only [decide_eq_true_eq] at hgh
        refine ⟨(g.1, g.2 ++ [s]), ?_, List.mem_append_right _ (by simp)⟩
        have heq : (if g.1 = h then (g.1, g.2 ++ [s]) else g) =
            (g.1, g.2 ++ [s]) := if_pos hgh
        rw [← heq]
        exact List.mem_map_of_mem _ hg
  case isFalse hkey =>
    constructor
    · rintro ⟨g', hg', hs⟩
      rcases List.mem_append.mp hg' with h1 | h1
      · exact Or.inl ⟨g', h1, hs⟩
      · have hg'' : g' = (h, [x]) := by simpa using h1
        subst hg''
        simp only [List.mem_singleton] at hs
        exact Or.inr hs
    · rintro (⟨g, hg, hs⟩ | rfl)
      · exact ⟨g, List.mem_append_left _ hg, hs⟩
      · exact ⟨(h, [s]), List.mem_append_right _ (by simp), by simp⟩

/-- One scan step adds exactly the processed file, and only when it is
neither inside a category path nor unhashable. -/
theorem gatherStep_mem (gs : List (Nat × List ScanFile)) (x s : ScanFile) :
    inSomeGroup (gatherStep gs x) s ↔
      inSomeGroup gs s ∨
        (s = x ∧ inCategoryParts x = false ∧
          (computeHashV2 x.file).isSome = true) := by
  unfold gatherStep
  split
  case isTrue hskip => simp [hskip]
  case isFalse hskip =>
    have hskip' : inCategoryParts x = false := by
      cases hb : inCategoryParts x
      · rfl
      · exact absurd hb hskip
    cases hh : computeHashV2 x.file with
    | none => simp
    | some h => rw [show (match some h with
        | some h => addToGroups gs h x
        | none => gs) = addToGroups gs h x from rfl, addToGroups_mem]
                simp [hskip']

/-- The scan loop grows the groups by exactly the eligible files. -/
theorem gatherFold_mem :
    ∀ (items : List ScanFile) (gs : List (Nat × List ScanFile)) (s : ScanFile),
    inSomeGroup (items.foldl gatherStep gs) s ↔
      inSomeGroup gs s ∨
        (s ∈ items ∧ inCategoryParts s = false ∧
          (computeHashV2 s.file).isSome = true) := by
  intro items
  induction items with
  | nil => intro gs s; simp [inSomeGroup]
  | cons x xs ih =>
    intro gs s
    rw [List.foldl_cons, ih (gatherStep gs x) s, gatherStep_mem]
    constructor
    · rintro ((hg | ⟨rfl, h1, h2⟩) | ⟨hmem, hC⟩)
      · exact Or.inl hg
      · exact Or.inr ⟨List.mem_cons_self _ _, h1, h2⟩
      · exact Or.inr ⟨List.mem_cons_of_mem _ hmem, hC⟩
    · rintro (hg | ⟨hmem, hC⟩)
      · exact Or.inl (Or.inl hg)
      · rcases List.mem_cons.mp hmem with rfl | hxs
        · exact Or.inl (Or.inr ⟨rfl, hC⟩)
        · exact Or.inr ⟨hxs, hC⟩

section ClaimC8

/-- A hashable file nested under the non-category top-level folder
`Projects`, inside a deeper directory that merely shares the name of
the category folder `7 - CODING`. -/
def c8file : ScanFile := ⟨["Projects", "7 - CODING"], ⟨"y", ".txt"⟩, ⟨3, true⟩⟩

/-- C8, counterexample: the top-level component `Projects` of this file
is not a category folder name, so the claim would include the file in
duplicate grouping; the code excludes it, because its `continue` test
fires on ANY component of the relative path and the deeper component
`7 - CODING` is a category name. -/
theorem c8_counterexample_deep_component_excluded :
    catNames.contains "Projects" = false ∧
    (computeHashV2 c8file.file).isSome = true ∧
    inCategoryParts c8file = true ∧
    gatherHashes [c8file] = [] := by
  refine ⟨by decide, by decide, by decide, by decide⟩

/-- C8, amended: the Global Duplicate Finder groups a scanned file iff
the file is hashable and NO component of its path relative to the base
folder — top-level or deeper directories, the filename itself included —
is a category folder name. -/
theorem c8_amended_any_component_excluded :
    (∀ (items : List ScanFile) (s : ScanFile),
      inSomeGroup (gatherHashes items) s ↔
        s ∈ items ∧ inCategoryParts s = false ∧
          (computeHashV2 s.file).isSome = true) ∧
    (∀ s : ScanFile, inCategoryParts s = false ↔
      ∀ part ∈ s.parts, catNames.contains part = false) := by
  constructor
  · intro items s
    rw [gatherHashes, gatherFold_mem]
    simp [inSomeGroup]
  · intro s
    unfold inCategoryParts
    rw [List.any_eq_false]
    constructor
    · intro hf part hp
      have := hf part hp
      simpa using this
    · intro hf part hp
      simpa using hf part hp

/-- Witness for `c8_amended_any_component_excluded` at concrete inputs. -/
theorem c8_amended_any_component_excluded_witness :
    inSomeGroup (gatherHashes [⟨["Projects"], ⟨"z", ".txt"⟩, ⟨4, true⟩⟩])
      ⟨["Projects"], ⟨"z", ".txt"⟩, ⟨4, true⟩⟩ := by
  exact (c8_amended_any_component_excluded.1
      [⟨["Projects"], ⟨"z", ".txt"⟩, ⟨4, true⟩⟩]
      ⟨["Projects"], ⟨"z", ".txt"⟩, ⟨4, true⟩⟩).mpr
    ⟨by decide, by decide, by decide⟩

end ClaimC8

/-- Which filesystem mutations fail during a call (permissions,
cross-device move, file vanished). -/
structure OpFaults where
  moveFails : Bool
  unlinkFails : Bool
deriving DecidableEq

/-- Result of a placement call in the exception-aware model: a normal
return, an exception escaping the call (which aborts the surrounding
pass, since no caller catches it), or exhausted loop fuel. -/
inductive MoveRes (β : Type) where
  | ok (b : β)
  | raised
  | fuelOut
deriving DecidableEq

/-- v2 `move_and_rename_file` with explicit failure injection.  The
`shutil.move` call sits inside `try/except (shutil.Error, OSError)`
(lines 212-218): a failed move is logged and the function returns
`False`.  The `src.unlink()` of the duplicate branch (line 200) is NOT
inside the `try`, so a failed delete escapes. -/
def moveRenameV2E (flt : OpFaults) (src : FileName × FsFile) (d : CatDir)
    (fuel : Nat) : MoveRes (CatDir × Bool) :=
  let base := getTargetFilename src.1
  if existsIn d base then
    if hashAtV2 d base = computeHashV2 src.2 then
      if flt.unlinkFails then .raised else .ok (d, false)
    else
      match firstFreeV2 d base.stem base.ext fuel 1 with
      | none => .fuelOut
      | some n =>
        if flt.moveFails then .ok (d, false)
        else .ok (insertFile d n src.2, true)
  else
    if flt.moveFails then .ok (d, false)
    else .ok (insertFile d base src.2, true)

/-- v1 `move_and_rename_file` with explicit failure injection: v1 has no
`try/except` at all, so a failed `shutil.move` or `src.unlink()` escapes
and aborts the pass, as does a `compute_hash` read error.  (`fuelOut`
covers fuel exhaustion, and a candidate hash error inside the loop —
also an escaping exception — via `disambigV1` returning `none`.) -/
def moveRenameV1E (flt : OpFaults) (src : FileName × FsFile) (d : CatDir)
    (fuel : Nat) : MoveRes (CatDir × MoveOutcome) :=
  let base := getTargetFilename src.1
  if existsIn d base then
    match hashAtV1 d base, computeHashV1 src.2 with
    | some ht, some hs =>
      if ht = hs then
        if flt.unlinkFails then .raised else .ok (d, .deletedDup)
      else
        match disambigV1 d hs base.stem base.ext fuel 1 with
        | none => .fuelOut
        | some (true, _) =>
          if flt.unlinkFails then .raised else .ok (d, .deletedDup)
        | some (false, n) =>
          if flt.moveFails then .raised
          else .ok (insertFile d n src.2, .movedTo n)
    | _, _ => .raised
  else
    if flt.moveFails then .raised
    else .ok (insertFile d base src.2, .movedTo base)

section ClaimC9

/-- C9, counterexample: a failed move in v1 `move_and_rename_file`
escapes the call (nothing catches it, so the pass aborts), and so does a
failed duplicate-delete (`src.unlink()`) in v2, contradicting the claim
that a move or delete failure is always logged and skipped with the pass
continuing. -/
theorem c9_counterexample_failures_abort :
    moveRenameV1E ⟨true, false⟩ (⟨"c", ".txt"⟩, ⟨1, true⟩) ⟨[], []⟩ 3 =
      MoveRes.raised ∧
    moveRenameV2E ⟨false, true⟩ (⟨"c", ".txt"⟩, ⟨1, true⟩)
      ⟨[(⟨"c", ".txt"⟩, ⟨1, true⟩)], []⟩ 3 = MoveRes.raised := by
  refine ⟨by decide, by decide⟩

/-- C9, amended: only v2 move failures are contained.  (i) In v2 a
failed `shutil.move` is caught, logged and reported as `False`, the pass
continuing; (ii) v2 never lets an exception escape unless the duplicate
delete fails; (iii) a failed duplicate delete in v2 escapes and aborts
the pass; and in v1 every move and every delete site escapes on
failure: (iv) a failed move to a free base name, (v) a failed
`src.unlink()` at a base-name duplicate, (vi) a failed `src.unlink()`
at a candidate duplicate found by the disambiguation loop, and (vii) a
failed move to a disambiguated candidate all abort the pass. -/
theorem c9_amended_v2_move_caught_delete_and_v1_abort :
    (∀ (flt : OpFaults) (src : FileName × FsFile) (d : CatDir) (fuel : Nat),
      existsIn d (getTargetFilename src.1) = false → flt.moveFails = true →
      moveRenameV2E flt src d fuel = .ok (d, false)) ∧
    (∀ (flt : OpFaults) (src : FileName × FsFile) (d : CatDir) (fuel : Nat),
      flt.unlinkFails = false →
      moveRenameV2E flt src d fuel ≠ MoveRes.raised) ∧
    (∀ (flt : OpFaults) (src : FileName × FsFile) (d : CatDir) (fuel : Nat),
      flt.unlinkFails = true →
      existsIn d (getTargetFilename src.1) = true →
      hashAtV2 d (getTargetFilename src.1) = computeHashV2 src.2 →
      moveRenameV2E flt src d fuel = MoveRes.raised) ∧
    (∀ (flt : OpFaults) (src : FileName × FsFile) (d : CatDir) (fuel : Nat),
      flt.moveFails = true →
      existsIn d (getTargetFilename src.1) = false →
      moveRenameV1E flt src d fuel = MoveRes.raised) ∧
    (∀ (flt : OpFaults) (src : FileName × FsFile) (d : CatDir) (fuel : Nat)
        (h : Nat),
      flt.unlinkFails = true →
      existsIn d (getTargetFilename src.1) = true →
      hashAtV1 d (getTargetFilename src.1) = some h →
      computeHashV1 src.2 = some h →
      moveRenameV1E flt src d fuel = MoveRes.raised) ∧
    (∀ (flt : OpFaults) (src : FileName × FsFile) (d : CatDir) (fuel : Nat)
        (ht hs : Nat) (w : FileName),
      flt.unlinkFails = true →
      existsIn d (getTargetFilename src.1) = true →
      hashAtV1 d (getTargetFilename src.1) = some ht →
      computeHashV1 src.2 = some hs → ht ≠ hs →
      disambigV1 d hs (getTargetFilename src.1).stem
        (getTargetFilename src.1).ext fuel 1 = some (true, w) →
      moveRenameV1E flt src d fuel = MoveRes.raised) ∧
    (∀ (flt : OpFaults) (src : FileName × FsFile) (d : CatDir) (fuel : Nat)
        (ht hs : Nat) (n : FileName),
      flt.moveFails = true →
      existsIn d (getTargetFilename src.1) = true →
      hashAtV1 d (getTargetFilename src.1) = some ht →
      computeHashV1 src.2 = some hs → ht ≠ hs →
      disambigV1 d hs (getTargetFilename src.1).stem
        (getTargetFilename src.1).ext fuel 1 = some (false, n) →
      moveRenameV1E flt src d fuel = MoveRes.raised) := by
  refine ⟨?_, ?_, ?_, ?_, ?_, ?_, ?_⟩
  · intro flt src d fuel hex hm
    simp only [moveRenameV2E]
    rw [if_neg (by simp [hex]), hm]
    simp
  · intro flt src d fuel hu hcon
    simp only [moveRenameV2E] at hcon
    split at hcon
    · split at hcon
      · rw [hu] at hcon
        simp at hcon
      · split at hcon
        · simp at hcon
        · split at hcon <;> simp at hcon
    · split at hcon <;> simp at hcon
  · intro flt src d fuel hu hex hh
    simp only [moveRenameV2E]
    rw [if_pos hex, if_pos hh, hu]
    simp
  · intro flt src d fuel hm hex
    simp only [moveRenameV1E]
    rw [if_neg (by simp [hex]), hm]
    simp
  · intro flt src d fuel h hu hex hht hhs
    simp only [moveRenameV1E]
    rw [if_pos hex]
    split
    next a b heq1 heq2 =>
      rw [hht] at heq1
      rw [hhs] at heq2
      have ha := Option.some.inj heq1
      have hb := Option.some.inj heq2
      rw [if_pos (by rw [← ha, ← hb]), hu]
      simp
    all_goals rfl
  · intro flt src d fuel ht hs w hu hex hht hhs hne hdis
    simp only [moveRenameV1E]
    rw [if_pos hex]
    split
    next a b heq1 heq2 =>
      rw [hht] at heq1
      rw [hhs] at heq2
      have ha := Option.some.inj heq1
      have hb := Option.some.inj heq2
      rw [if_neg (by rw [← ha, ← hb]; exact hne)]
      rw [hb] at hdis
      split
      next heqd =>
        rw [hdis] at heqd
        cases heqd
      next w2 heqd =>
        rw [hu]
        simp
      next n2 heqd =>
        rw [hdis] at heqd
        simp at heqd
    all_goals rfl
  · intro flt src d fuel ht hs n hm hex hht hhs hne hdis
    simp only [moveRenameV1E]
    rw [if_pos hex]
    split
    next a b heq1 heq2 =>
      rw [hht] at heq1
      rw [hhs] at heq2
      have ha := Option.some.inj heq1
      have hb := Option.some.inj heq2
      rw [if_neg (by rw [← ha, ← hb]; exact hne)]
      rw [hb] at hdis
      split
      next heqd =>
        rw [hdis] at heqd
        cases heqd
      next w2 heqd =>
        rw [hdis] at heqd
        simp at heqd
      next n2 heqd =>
        rw [hm]
        simp
    all_goals rfl

/-- Witness for `c9_amended_v2_move_caught_delete_and_v1_abort` at
concrete inputs. -/
theorem c9_amended_v2_move_caught_delete_and_v1_abort_witness :
    moveRenameV2E ⟨true, false⟩ (⟨"c", ".txt"⟩, ⟨1, true⟩) ⟨[], []⟩ 3 =
      .ok (⟨[], []⟩, false) ∧
    moveRenameV2E ⟨true, false⟩ (⟨"c", ".txt"⟩, ⟨1, true⟩) ⟨[], []⟩ 3 ≠
      MoveRes.raised ∧
    moveRenameV2E ⟨false, true⟩ (⟨"c", ".txt"⟩, ⟨1, true⟩)
      ⟨[(⟨"c", ".txt"⟩, ⟨1, true⟩)], []⟩ 3 = MoveRes.raised ∧
    moveRenameV1E ⟨true, false⟩ (⟨"c", ".txt"⟩, ⟨1, true⟩) ⟨[], []⟩ 3 =
      MoveRes.raised ∧
    moveRenameV1E ⟨false, true⟩ (⟨"c", ".txt"⟩, ⟨1, true⟩)
      ⟨[(⟨"c", ".txt"⟩, ⟨1, true⟩)], []⟩ 3 = MoveRes.raised ∧
    moveRenameV1E ⟨false, true⟩ (⟨"c", ".txt"⟩, ⟨2, true⟩)
      ⟨[(⟨"c", ".txt"⟩, ⟨1, true⟩), (⟨"c_1", ".txt"⟩, ⟨2, true⟩)], []⟩ 3 =
      MoveRes.raised ∧
    moveRenameV1E ⟨true, false⟩ (⟨"c", ".txt"⟩, ⟨2, true⟩)
      ⟨[(⟨"c", ".txt"⟩, ⟨1, true⟩)], []⟩ 3 = MoveRes.raised := by
  refine ⟨?_, ?_, ?_, ?_, ?_, ?_, ?_⟩
  · exact c9_amended_v2_move_caught_delete_and_v1_abort.1 ⟨true, false⟩
      (⟨"c", ".txt"⟩, ⟨1, true⟩) ⟨[], []⟩ 3 (by decide) rfl
  · exact c9_amended_v2_move_caught_delete_and_v1_abort.2.1 ⟨true, false⟩
      (⟨"c", ".txt"⟩, ⟨1, true⟩) ⟨[], []⟩ 3 rfl
  · exact c9_amended_v2_move_caught_delete_and_v1_abort.2.2.1 ⟨false, true⟩
      (⟨"c", ".txt"⟩, ⟨1, true⟩) ⟨[(⟨"c", ".txt"⟩, ⟨1, true⟩)], []⟩ 3 rfl
      (by decide) (by decide)
  · exact c9_amended_v2_move_caught_delete_and_v1_abort.2.2.2.1 ⟨true, false⟩
      (⟨"c", ".txt"⟩, ⟨1, true⟩) ⟨[], []⟩ 3 rfl (by decide)
  · exact c9_amended_v2_move_caught_delete_and_v1_abort.2.2.2.2.1
      ⟨false, true⟩ (⟨"c", ".txt"⟩, ⟨1, true⟩)
      ⟨[(⟨"c", ".txt"⟩, ⟨1, true⟩)], []⟩ 3 1 rfl (by decide) (by decide)
      (by decide)
  · exact c9_amended_v2_move_caught_delete_and_v1_abort.2.2.2.2.2.1
      ⟨false, true⟩ (⟨"c", ".txt"⟩, ⟨2, true⟩)
      ⟨[(⟨"c", ".txt"⟩, ⟨1, true⟩), (⟨"c_1", ".txt"⟩, ⟨2, true⟩)], []⟩ 3
      1 2 ⟨"c_1", ".txt"⟩ rfl (by decide) (by decide) (by decide) (by decide)
      (by decide)
  · exact c9_amended_v2_move_caught_delete_and_v1_abort.2.2.2.2.2.2
      ⟨true, false⟩ (⟨"c", ".txt"⟩, ⟨2, true⟩)
      ⟨[(⟨"c", ".txt"⟩, ⟨1, true⟩)], []⟩ 3 1 2 ⟨"c_1", ".txt"⟩ rfl
      (by decide) (by decide) (by decide) (by decide) (by decide)

end ClaimC9

/-- The base folder being organized: its top-level files and its
top-level directories with their contents.  `organize` never reads the
contents of a directory nested below the top level, so a relocated
subdirectory is recorded by name only (in the `dirs` component of
`6 - FOLDERS`). -/
structure BaseState where
  rootFiles : List (FileName × FsFile)
  dirs : List (String × CatDir)
deriving DecidableEq

/-- Look up a top-level directory by name (first entry wins, as on a
filesystem where names are unique). -/
def lookupDir : List (String × CatDir) → String → Option CatDir
  | [], _ => none
  | p :: rest, nm => if p.1 = nm then some p.2 else lookupDir rest nm

/-- The contents of a top-level directory (empty when absent; the
callers below only read directories they have ensured to exist). -/
def getDir (s : BaseState) (nm : String) : CatDir :=
  (lookupDir s.dirs nm).getD ⟨[], []⟩

/-- `(base_folder / nm).exists()` for a top-level directory. -/
def hasDir (s : BaseState) (nm : String) : Bool :=
  s.dirs.any (fun p => decide (p.1 = nm))

/-- Replace the contents of the named top-level directory. -/
def setList (l : List (String × CatDir)) (nm : String) (d : CatDir) :
    List (String × CatDir) :=
  l.map (fun p => if p.1 = nm then (nm, d) else p)

/-- Replace the contents of the named top-level directory of the base
state. -/
def setDir (s : BaseState) (nm : String) (d : CatDir) : BaseState :=
  { s with dirs := setList s.dirs nm d }

/-- `ensure_folder_exists`: create the directory when missing
(`mkdir(parents=True, exist_ok=True)`). -/
def ensureDir (s : BaseState) (nm : String) : BaseState :=
  if hasDir s nm then s else { s with dirs := s.dirs ++ [(nm, ⟨[], []⟩)] }

/-- The loop creating every category folder. -/
def ensureFolders (s : BaseState) : BaseState :=
  catNames.foldl ensureDir s

/-- Event counters of one organize action: files moved and folders moved
as in the v2 summary, plus the sources deleted by the duplicate branch
of the Placement Resolver (v2 does not count those; they are tracked
here to state the zero-deletions property of the idempotence claim). -/
structure RunCounts where
  filesMoved : Nat
  foldersMoved : Nat
  srcDeleted : Nat
deriving DecidableEq

/-- `move_folder` loop: the first counter whose suffixed name is free in
the destination.  Fuelled; `none` is fuel exhaustion. -/
def freeFolderName (d : CatDir) (nm : String) : Nat → Nat → Option String
  | 0, _ => none
  | fuel + 1, k =>
    if existsName d (nm ++ "_" ++ Nat.repr k) then
      freeFolderName d nm fuel (k + 1)
    else some (nm ++ "_" ++ Nat.repr k)

/-- `move_folder` into a destination directory (identical in v1 and v2,
no hash comparison): keep the original name when free, else the first
free counter-suffixed name.  The moved directory is recorded by name. -/
def moveFolder (nm : String) (d : CatDir) (fuel : Nat) : Option CatDir :=
  if existsName d nm then
    match freeFolderName d nm fuel 1 with
    | none => none
    | some t => some { d with dirs := d.dirs ++ [t] }
  else some { d with dirs := d.dirs ++ [nm] }

/-- One iteration of the v1 file loop: classify by raw suffix, place via
the v1 resolver into the category folder, remove the source from the top
level (the move or the duplicate delete took it). -/
def placeFileV1 (s : BaseState) (n : FileName) (f : FsFile) (fuel : Nat) :
    Option (BaseState × MoveOutcome) :=
  match moveRenameV1 (n, f) (getDir s (classifyV1 n)) fuel with
  | none => none
  | some (d', out) =>
    let s1 := setDir s (classifyV1 n) d'
    some ({ s1 with
      rootFiles := s1.rootFiles.eraseP (fun p => decide (p.1 = n)) }, out)

/-- One iteration of the v2 file loop: as v1 but with the ipynb override
classification and the v2 resolver. -/
def placeFileV2 (s : BaseState) (n : FileName) (f : FsFile) (fuel : Nat) :
    Option (BaseState × MoveOutcome) :=
  match moveRenameV2 (n, f) (getDir s (classifyV2 n)) fuel with
  | none => none
  | some (d', out) =>
    let s1 := setDir s (classifyV2 n) d'
    some ({ s1 with
      rootFiles := s1.rootFiles.eraseP (fun p => decide (p.1 = n)) }, out)

/-- The v1 file loop over the snapshot `list(base_folder.iterdir())`
(entries that are directories are dropped by `is_file()`; v1 skips no
file). -/
def processFilesV1 (fuel : Nat) :
    List (FileName × FsFile) → BaseState → RunCounts →
      Option (BaseState × RunCounts)
  | [], s, c => some (s, c)
  | (n, f) :: rest, s, c =>
    match placeFileV1 s n f fuel with
    | none => none
    | some (s', MoveOutcome.movedTo _) =>
      processFilesV1 fuel rest s' { c with filesMoved := c.filesMoved + 1 }
    | some (s', MoveOutcome.deletedDup) =>
      processFilesV1 fuel rest s' { c with srcDeleted := c.srcDeleted + 1 }

/-- The v2 file loop: a file whose name is in a skip list or is a
category folder name is skipped (v2 line 315). -/
def processFilesV2 (skipF skipD : List String) (fuel : Nat) :
    List (FileName × FsFile) → BaseState → RunCounts →
      Option (BaseState × RunCounts)
  | [], s, c => some (s, c)
  | (n, f) :: rest, s, c =>
    if skipF.contains n.name || skipD.contains n.name ||
        catNames.contains n.name then
      processFilesV2 skipF skipD fuel rest s c
    else
      match placeFileV2 s n f fuel with
      | none => none
      | some (s', MoveOutcome.movedTo _) =>
        processFilesV2 skipF skipD fuel rest s'
          { c with filesMoved := c.filesMoved + 1 }
      | some (s', MoveOutcome.deletedDup) =>
        processFilesV2 skipF skipD fuel rest s'
          { c with srcDeleted := c.srcDeleted + 1 }

/-- The directory loop (both scripts; v1 passes no skip list, v2 skips
`folders_to_skip`): a top-level directory that is not a category folder
and not skipped is moved into `6 - FOLDERS`, which is first ensured to
exist. -/
def processDirs (skipD : List String) (fuel : Nat) :
    List (String × CatDir) → BaseState → RunCounts →
      Option (BaseState × RunCounts)
  | [], s, c => some (s, c)
  | (nm, _) :: rest, s, c =>
    if !(catNames.contains nm) && !(skipD.contains nm) then
      let s0 := ensureDir s "6 - FOLDERS"
      match moveFolder nm (getDir s0 "6 - FOLDERS") fuel with
      | none => none
      | some d' =>
        let s1 := setDir s0 "6 - FOLDERS" d'
        let s2 := { s1 with
          dirs := s1.dirs.eraseP (fun p => decide (p.1 = nm)) }
        processDirs skipD fuel rest s2
          { c with foldersMoved := c.foldersMoved + 1 }
    else processDirs skipD fuel rest s c

/-- The curated re-routing extension set of `refine_sorting` (identical
in v1 and v2). -/
def refineExts : List String := [".json", ".tsx", ".ts", ".yaml", ".yml"]

/-- The v1 `refine_sorting` loop over the snapshot of the folder it
inspects: every file with a curated extension is placed into
`7 - CODING` via the v1 resolver and leaves the inspected folder.
(Entries that are directories are dropped by `is_file()`.) -/
def refineLoopV1 (fuel : Nat) :
    List (FileName × FsFile) → BaseState → RunCounts →
      Option (BaseState × RunCounts)
  | [], s, c => some (s, c)
  | (n, f) :: rest, s, c =>
    if refineExts.contains (lowerStr n.ext) then
      match moveRenameV1 (n, f) (getDir s "7 - CODING") fuel with
      | none => none
      | some (d', out) =>
        let s1 := setDir s "7 - CODING" d'
        let o' : CatDir := ⟨(getDir s1 "9 - OTHERS").files.eraseP
          (fun p => decide (p.1 = n)), (getDir s1 "9 - OTHERS").dirs⟩
        let s2 := setDir s1 "9 - OTHERS" o'
        match out with
        | MoveOutcome.movedTo _ =>
          refineLoopV1 fuel rest s2 { c with filesMoved := c.filesMoved + 1 }
        | MoveOutcome.deletedDup =>
          refineLoopV1 fuel rest s2 { c with srcDeleted := c.srcDeleted + 1 }
    else refineLoopV1 fuel rest s c

/-- v1 `refine_sorting`: it inspects `9 - OTHERS` (folder_organizer.py
line 79) and only requires that folder to exist. -/
def refineSortingV1 (s : BaseState) (fuel : Nat) (c : RunCounts) :
    Option (BaseState × RunCounts) :=
  if hasDir s "9 - OTHERS" then
    refineLoopV1 fuel (getDir s "9 - OTHERS").files s c
  else some (s, c)

/-- The v2 `refine_sorting` loop: as v1 but over `10 - OTHERS` and with
the v2 resolver; a completed move is counted into `files_moved`. -/
def refineLoopV2 (fuel : Nat) :
    List (FileName × FsFile) → BaseState → RunCounts →
      Option (BaseState × RunCounts)
  | [], s, c => some (s, c)
  | (n, f) :: rest, s, c =>
    if refineExts.contains (lowerStr n.ext) then
      match moveRenameV2 (n, f) (getDir s "7 - CODING") fuel with
      | none => none
      | some (d', out) =>
        let s1 := setDir s "7 - CODING" d'
        let o' : CatDir := ⟨(getDir s1 "10 - OTHERS").files.eraseP
          (fun p => decide (p.1 = n)), (getDir s1 "10 - OTHERS").dirs⟩
        let s2 := setDir s1 "10 - OTHERS" o'
        match out with
        | MoveOutcome.movedTo _ =>
          refineLoopV2 fuel rest s2 { c with filesMoved := c.filesMoved + 1 }
        | MoveOutcome.deletedDup =>
          refineLoopV2 fuel rest s2 { c with srcDeleted := c.srcDeleted + 1 }
    else refineLoopV2 fuel rest s c

/-- v2 `refine_sorting`: it inspects `10 - OTHERS` and requires both that
folder and `7 - CODING` to exist (folder_organizer_v2.py line 246). -/
def refineSortingV2 (s : BaseState) (fuel : Nat) (c : RunCounts) :
    Option (BaseState × RunCounts) :=
  if hasDir s "10 - OTHERS" && hasDir s "7 - CODING" then
    refineLoopV2 fuel (getDir s "10 - OTHERS").files s c
  else some (s, c)

/-- v1 `main` after folder selection: ensure every category folder,
move each top-level file, move each non-category top-level directory,
run the refinement pass. -/
def organizeV1 (s : BaseState) (fuel : Nat) : Option (BaseState × RunCounts) :=
  match processFilesV1 fuel (ensureFolders s).rootFiles (ensureFolders s)
      ⟨0, 0, 0⟩ with
  | none => none
  | some (s1, c1) =>
    match processDirs [] fuel s1.dirs s1 c1 with
    | none => none
    | some (s2, c2) => refineSortingV1 s2 fuel c2

/-- The v2 organize action (`main` lines 306-341), with the two
user-chosen skip lists. -/
def organizeV2 (skipF skipD : List String) (s : BaseState) (fuel : Nat) :
    Option (BaseState × RunCounts) :=
  match processFilesV2 skipF skipD fuel (ensureFolders s).rootFiles
      (ensureFolders s) ⟨0, 0, 0⟩ with
  | none => none
  | some (s1, c1) =>
    match processDirs skipD fuel s1.dirs s1 c1 with
    | none => none
    | some (s2, c2) => refineSortingV2 s2 fuel c2

section ClaimC4

/-- A base state in which every category folder exists and the fallback
folder `10 - OTHERS` holds one file `x.json`, whose extension belongs to
the curated re-routing set. -/
def c4state : BaseState :=
  ⟨[], [("1 - ARCHIVES", ⟨[], []⟩), ("2 - DOCUMENTS", ⟨[], []⟩),
    ("3 - IMAGES", ⟨[], []⟩), ("4 - PDFs", ⟨[], []⟩),
    ("5 - VIDEOS", ⟨[], []⟩), ("6 - FOLDERS", ⟨[], []⟩),
    ("7 - CODING", ⟨[], []⟩), ("8 - INSTALLERS & APPLICATIONS", ⟨[], []⟩),
    ("9 - SECURITY", ⟨[], []⟩), ("10 - OTHERS",
      ⟨[(⟨"x", ".json"⟩, ⟨9, true⟩)], []⟩)]⟩

/-- The state after v2 refinement: `x.json` has been re-placed into
`7 - CODING`. -/
def c4stateMoved : BaseState :=
  ⟨[], [("1 - ARCHIVES", ⟨[], []⟩), ("2 - DOCUMENTS", ⟨[], []⟩),
    ("3 - IMAGES", ⟨[], []⟩), ("4 - PDFs", ⟨[], []⟩),
    ("5 - VIDEOS", ⟨[], []⟩), ("6 - FOLDERS", ⟨[], []⟩),
    ("7 - CODING", ⟨[(⟨"x", ".json"⟩, ⟨9, true⟩)], []⟩),
    ("8 - INSTALLERS & APPLICATIONS", ⟨[], []⟩),
    ("9 - SECURITY", ⟨[], []⟩), ("10 - OTHERS", ⟨[], []⟩)]⟩

/-- C4, code bug in v1: the fallback category folder is `10 - OTHERS`
(where the v1 main loop routes unmatched extensions), but v1
`refine_sorting` inspects `9 - OTHERS`, which the script never creates
(the table comment marks the fallback as renumbered).  So v1 refinement
leaves a curated-extension file sitting in the fallback folder and moves
nothing, while v2 re-places it into `7 - CODING` as the claim states. -/
theorem c4_v1_refines_wrong_folder :
    refineExts.contains (lowerStr ".json") = true ∧
    hasDir c4state "9 - OTHERS" = false ∧
    hasDir c4state "10 - OTHERS" = true ∧
    refineSortingV1 c4state 5 ⟨0, 0, 0⟩ = some (c4state, ⟨0, 0, 0⟩) ∧
    getDir c4state "7 - CODING" = ⟨[], []⟩ ∧
    refineSortingV2 c4state 5 ⟨0, 0, 0⟩ = some (c4stateMoved, ⟨1, 0, 0⟩) := by
  refine ⟨by decide, by decide, by decide, by decide, by decide, by decide⟩

end ClaimC4

/-- Well-formedness of a base state, as holds on a real filesystem:
top-level file names are distinct, top-level directory names are
distinct, and file names inside each top-level directory are distinct. -/
def wfState (s : BaseState) : Prop :=
  (s.rootFiles.map Prod.fst).Nodup ∧ (s.dirs.map Prod.fst).Nodup ∧
  ∀ p ∈ s.dirs, (p.2.files.map Prod.fst).Nodup

/-- The per-directory part of well-formedness. -/
def dirsNodup (s : BaseState) : Prop :=
  ∀ p ∈ s.dirs, (p.2.files.map Prod.fst).Nodup

instance wfStateDecidable (s : BaseState) : Decidable (wfState s) :=
  inferInstanceAs (Decidable ((s.rootFiles.map Prod.fst).Nodup ∧
    (s.dirs.map Prod.fst).Nodup ∧
    ∀ p ∈ s.dirs, (p.2.files.map Prod.fst).Nodup))

theorem keys_setList (l : List (String × CatDir)) (nm : String) (d : CatDir) :
    (setList l nm d).map Prod.fst = l.map Prod.fst := by
  unfold setList
  rw [List.map_map]
  apply List.map_congr_left
  intro p _
  by_cases hp : p.1 = nm
  · simp [hp]
  · simp [hp]

theorem setDir_rootFiles (s : BaseState) (nm : String) (d : CatDir) :
    (setDir s nm d).rootFiles = s.rootFiles := rfl

theorem setDir_keys (s : BaseState) (nm : String) (d : CatDir) :
    (setDir s nm d).dirs.map Prod.fst = s.dirs.map Prod.fst :=
  keys_setList s.dirs nm d

theorem hasDir_iff (s : BaseState) (nm : String) :
    hasDir s nm = true ↔ nm ∈ s.dirs.map Prod.fst := by
  unfold hasDir
  rw [List.any_eq_true]
  constructor
  · rintro ⟨p, hp, hd⟩
    simp only [decide_eq_true_eq] at hd
    exact hd ▸ List.mem_map_of_mem _ hp
  · intro h
    rcases List.mem_map.mp h with ⟨p, hp, rfl⟩
    exact ⟨p, hp, by simp⟩

theorem lookupDir_setList_ne (l : List (String × CatDir)) (nm nm' : String)
    (d : CatDir) (h : nm ≠ nm') :
    lookupDir (setList l nm d) nm' = lookupDir l nm' := by
  induction l with
  | nil => rfl
  | cons p rest ih =>
    unfold setList at *
    simp only [List.map_cons]
    by_cases hp : p.1 = nm
    · rw [if_pos hp]
      show lookupDir ((nm, d) :: _) nm' = _
      rw [lookupDir, lookupDir, if_neg h, if_neg (by rw [hp]; exact h)]
      exact ih
    · rw [if_neg hp]
      rw [lookupDir, lookupDir]
      by_cases hp' : p.1 = nm'
      · rw [if_pos hp', if_pos hp']
      · rw [if_neg hp', if_neg hp']
        exact ih

theorem lookupDir_setList_self (l : List (String × CatDir)) (nm : String)
    (d : CatDir) (h : nm ∈ l.map Prod.fst) :
    lookupDir (setList l nm d) nm = some d := by
  induction l with
  | nil => cases h
  | cons p rest ih =>
    unfold setList at *
    simp only [List.map_cons]
    by_cases hp : p.1 = nm
    · rw [if_pos hp]
      show lookupDir ((nm, d) :: _) nm = _
      rw [lookupDir, if_pos rfl]
    · rw [if_neg hp]
      rw [lookupDir, if_neg hp]
      rcases List.mem_cons.mp h with heq | hm
      · exact absurd heq.symm hp
      · exact ih hm

theorem lookupDir_mem (l : List (String × CatDir)) (nm : String) (d : CatDir)
    (h : lookupDir l nm = some d) : (nm, d) ∈ l := by
  induction l with
  | nil => cases h
  | cons p rest ih =>
    rw [lookupDir] at h
    split at h
    next hp =>
      have hd : p.2 = d := Option.some.inj h
      have hpe : (nm, d) = p := by
        rcases p with ⟨p1, p2⟩
        simp only at hp hd
        rw [hp, hd]
      rw [hpe]
      exact List.mem_cons_self _ _
    next hp => exact List.mem_cons_of_mem _ (ih h)

theorem getDir_setDir_ne (s : BaseState) (nm nm' : String) (d : CatDir)
    (h : nm ≠ nm') : getDir (setDir s nm d) nm' = getDir s nm' := by
  unfold getDir setDir
  rw [lookupDir_setList_ne s.dirs nm nm' d h]

theorem getDir_setDir_self (s : BaseState) (nm : String) (d : CatDir)
    (h : nm ∈ s.dirs.map Prod.fst) : getDir (setDir s nm d) nm = d := by
  unfold getDir setDir
  rw [lookupDir_setList_self s.dirs nm d h]
  rfl

theorem mem_setList (l : List (String × CatDir)) (nm : String) (d : CatDir)
    (p : String × CatDir) (h : p ∈ setList l nm d) : p ∈ l ∨ p = (nm, d) := by
  unfold setList at h
  rcases List.mem_map.mp h with ⟨q, hq, hqe⟩
  by_cases hq1 : q.1 = nm
  · rw [if_pos hq1] at hqe
    exact Or.inr hqe.symm
  · rw [if_neg hq1] at hqe
    exact Or.inl (hqe ▸ hq)

/-- The directory returned by `getDir` has distinct file names whenever
the state is directory-well-formed. -/
theorem getDir_files_nodup (s : BaseState) (nm : String) (h : dirsNodup s) :
    ((getDir s nm).files.map Prod.fst).Nodup := by
  unfold getDir
  cases hl : lookupDir s.dirs nm with
  | none => simp
  | some d => exact h (nm, d) (lookupDir_mem s.dirs nm d hl)

theorem ensureDir_rootFiles (s : BaseState) (nm : String) :
    (ensureDir s nm).rootFiles = s.rootFiles := by
  unfold ensureDir
  split <;> rfl

theorem ensureDir_keys_mono (s : BaseState) (nm x : String)
    (h : x ∈ s.dirs.map Prod.fst) : x ∈ (ensureDir s nm).dirs.map Prod.fst := by
  unfold ensureDir
  split
  · exact h
  · simp only [List.map_append]
    exact List.mem_append_left _ h

theorem ensureDir_mem_self (s : BaseState) (nm : String) :
    nm ∈ (ensureDir s nm).dirs.map Prod.fst := by
  unfold ensureDir
  split
  next h => exact (hasDir_iff s nm).mp h
  next h =>
    simp only [List.map_append]
    exact List.mem_append_right _ (by simp)

theorem ensureDir_keys_nodup (s : BaseState) (nm : String)
    (h : (s.dirs.map Prod.fst).Nodup) :
    ((ensureDir s nm).dirs.map Prod.fst).Nodup := by
  unfold ensureDir
  split
  next => exact h
  next hnd =>
    simp only [List.map_append]
    rw [List.nodup_append]
    refine ⟨h, by simp, ?_⟩
    intro x hx
    simp only [List.map_cons, List.map_nil, List.mem_singleton]
    intro hxnm
    subst hxnm
    exact hnd ((hasDir_iff s x).mpr hx)

theorem ensureDir_dirsNodup (s : BaseState) (nm : String) (h : dirsNodup s) :
    dirsNodup (ensureDir s nm) := by
  unfold ensureDir
  split
  · exact h
  · intro p hp
    rcases List.mem_append.mp hp with h1 | h1
    · exact h p h1
    · have : p = (nm, ⟨[], []⟩) := by simpa using h1
      subst this
      simp

theorem ensureDir_id (s : BaseState) (nm : String) (h : hasDir s nm = true) :
    ensureDir s nm = s := by
  unfold ensureDir
  rw [if_pos h]

theorem foldl_ensure_rootFiles :
    ∀ (l : List String) (s : BaseState), (l.foldl ensureDir s).rootFiles = s.rootFiles := by
  intro l
  induction l with
  | nil => intro s; rfl
  | cons x xs ih => intro s; rw [List.foldl_cons, ih, ensureDir_rootFiles]

theorem foldl_ensure_keys_mono :
    ∀ (l : List String) (s : BaseState) (x : String),
      x ∈ s.dirs.map Prod.fst → x ∈ (l.foldl ensureDir s).dirs.map Prod.fst := by
  intro l
  induction l with
  | nil => intro s x h; exact h
  | cons y ys ih =>
    intro s x h
    rw [List.foldl_cons]
    exact ih (ensureDir s y) x (ensureDir_keys_mono s y x h)

theorem foldl_ensure_mem :
    ∀ (l : List String) (s : BaseState) (c : String),
      c ∈ l → c ∈ (l.foldl ensureDir s).dirs.map Prod.fst := by
  intro l
  induction l with
  | nil => intro s c h; cases h
  | cons x xs ih =>
    intro s c h
    rw [List.foldl_cons]
    rcases List.mem_cons.mp h with rfl | hm
    · exact foldl_ensure_keys_mono xs (ensureDir s c) c (ensureDir_mem_self s c)
    · exact ih (ensureDir s x) c hm

theorem foldl_ensure_keys_nodup :
    ∀ (l : List String) (s : BaseState), (s.dirs.map Prod.fst).Nodup →
      ((l.foldl ensureDir s).dirs.map Prod.fst).Nodup := by
  intro l
  induction l with
  | nil => intro s h; exact h
  | cons x xs ih =>
    intro s h
    rw [List.foldl_cons]
    exact ih (ensureDir s x) (ensureDir_keys_nodup s x h)

theorem foldl_ensure_dirsNodup :
    ∀ (l : List String) (s : BaseState), dirsNodup s →
      dirsNodup (l.foldl ensureDir s) := by
  intro l
  induction l with
  | nil => intro s h; exact h
  | cons x xs ih =>
    intro s h
    rw [List.foldl_cons]
    exact ih (ensureDir s x) (ensureDir_dirsNodup s x h)

theorem foldl_ensure_id :
    ∀ (l : List String) (s : BaseState), (∀ c ∈ l, hasDir s c = true) →
      l.foldl ensureDir s = s := by
  intro l
  induction l with
  | nil => intro s _; rfl
  | cons x xs ih =>
    intro s h
    rw [List.foldl_cons, ensureDir_id s x (h x (List.mem_cons_self _ _))]
    exact ih s (fun c hc => h c (List.mem_cons_of_mem _ hc))

theorem ensureFolders_id (s : BaseState)
    (h : ∀ c ∈ catNames, hasDir s c = true) : ensureFolders s = s :=
  foldl_ensure_id catNames s h

/-- Erasing by key commutes with projecting the keys. -/
theorem map_fst_eraseP_key {β γ : Type} [DecidableEq β]
    (l : List (β × γ)) (b : β) :
    (l.eraseP (fun p => decide (p.1 = b))).map Prod.fst =
    (l.map Prod.fst).eraseP (fun k => decide (k = b)) := by
  induction l with
  | nil => rfl
  | cons x xs ih =>
    by_cases hx : x.1 = b
    · rw [List.eraseP_cons_of_pos (by simp [hx]), List.map_cons,
        List.eraseP_cons_of_pos (by simp [hx])]
    · rw [List.eraseP_cons_of_neg (by simp [hx]), List.map_cons, List.map_cons,
        List.eraseP_cons_of_neg (by simp [hx]), ih]

/-- An element on which the predicate fails survives `eraseP`. -/
theorem mem_eraseP_of_pred_false {α : Type} (a : α) (l : List α) (p : α → Bool)
    (hp : p a = false) (hm : a ∈ l) : a ∈ l.eraseP p := by
  induction l with
  | nil => cases hm
  | cons x xs ih =>
    by_cases hx : p x = true
    · rw [List.eraseP_cons_of_pos hx]
      rcases List.mem_cons.mp hm with rfl | h2
      · rw [hp] at hx; cases hx
      · exact h2
    · rw [List.eraseP_cons_of_neg hx]
      rcases List.mem_cons.mp hm with rfl | h2
      · exact List.mem_cons_self _ _
      · exact List.mem_cons_of_mem _ (ih h2)

/-- A fold whose step either keeps the accumulator or erases the key of
the processed element leaves elements with other keys in place. -/
theorem foldl_step_cons_pairs {β γ : Type} [DecidableEq β]
    (step : List (β × γ) → β × γ → List (β × γ)) (keep : β × γ → Bool)
    (hstep : ∀ acc x, step acc x = if keep x = true then acc
      else acc.eraseP (fun p => decide (p.1 = x.1))) :
    ∀ (ys acc : List (β × γ)) (a : β × γ), a.1 ∉ ys.map Prod.fst →
      ys.foldl step (a :: acc) = a :: ys.foldl step acc := by
  intro ys
  induction ys with
  | nil => intro acc a _; rfl
  | cons y ys' ih =>
    intro acc a ha
    simp only [List.map_cons, List.mem_cons, not_or] at ha
    rw [List.foldl_cons, List.foldl_cons, hstep, hstep]
    by_cases hk : keep y = true
    · rw [if_pos hk, if_pos hk]
      exact ih acc a (by simpa using ha.2)
    · rw [if_neg hk, if_neg hk]
      rw [List.eraseP_cons_of_neg (by simp [ha.1])]
      exact ih _ a (by simpa using ha.2)

/-- Folding a key-erasing step over the very list being iterated leaves
exactly the kept elements, provided keys are distinct. -/
theorem foldl_step_filter_pairs {β γ : Type} [DecidableEq β]
    (step : List (β × γ) → β × γ → List (β × γ)) (keep : β × γ → Bool)
    (hstep : ∀ acc x, step acc x = if keep x = true then acc
      else acc.eraseP (fun p => decide (p.1 = x.1))) :
    ∀ l : List (β × γ), (l.map Prod.fst).Nodup →
      l.foldl step l = l.filter keep := by
  intro l
  induction l with
  | nil => intro _; rfl
  | cons x xs ih =>
    intro hnd
    simp only [List.map_cons, List.nodup_cons] at hnd
    rw [List.foldl_cons, hstep]
    by_cases hk : keep x = true
    · rw [if_pos hk]
      rw [foldl_step_cons_pairs step keep hstep xs xs x hnd.1]
      rw [ih hnd.2, List.filter_cons_of_pos hk]
    · rw [if_neg hk]
      rw [List.eraseP_cons_of_pos (by simp)]
      rw [ih hnd.2, List.filter_cons_of_neg (by simp [hk])]

/-- Plain-list variant of `foldl_step_cons_pairs`. -/
theorem foldl_step_cons_plain {β : Type} [DecidableEq β]
    (step : List β → β → List β) (keep : β → Bool)
    (hstep : ∀ acc x, step acc x = if keep x = true then acc
      else acc.eraseP (fun k => decide (k = x))) :
    ∀ (ys acc : List β) (a : β), a ∉ ys →
      ys.foldl step (a :: acc) = a :: ys.foldl step acc := by
  intro ys
  induction ys with
  | nil => intro acc a _; rfl
  | cons y ys' ih =>
    intro acc a ha
    simp only [List.mem_cons, not_or] at ha
    rw [List.foldl_cons, List.foldl_cons, hstep, hstep]
    by_cases hk : keep y = true
    · rw [if_pos hk, if_pos hk]
      exact ih acc a ha.2
    · rw [if_neg hk, if_neg hk]
      rw [List.eraseP_cons_of_neg (by simp [ha.1])]
      exact ih _ a ha.2

/-- Plain-list variant of `foldl_step_filter_pairs`. -/
theorem foldl_step_filter_plain {β : Type} [DecidableEq β]
    (step : List β → β → List β) (keep : β → Bool)
    (hstep : ∀ acc x, step acc x = if keep x = true then acc
      else acc.eraseP (fun k => decide (k = x))) :
    ∀ l : List β, l.Nodup → l.foldl step l = l.filter keep := by
  intro l
  induction l with
  | nil => intro _; rfl
  | cons x xs ih =>
    intro hnd
    rw [List.nodup_cons] at hnd
    rw [List.foldl_cons, hstep]
    by_cases hk : keep x = true
    · rw [if_pos hk]
      rw [foldl_step_cons_plain step keep hstep xs xs x hnd.1]
      rw [ih hnd.2, List.filter_cons_of_pos hk]
    · rw [if_neg hk]
      rw [List.eraseP_cons_of_pos (by simp)]
      rw [ih hnd.2, List.filter_cons_of_neg (by simp [hk])]

/-- The v2 resolver either leaves the destination unchanged (duplicate
delete) or inserts the source under a name that was free. -/
theorem moveRenameV2_cases (src : FileName × FsFile) (d : CatDir) (fuel : Nat)
    (d' : CatDir) (out : MoveOutcome)
    (h : moveRenameV2 src d fuel = some (d', out)) :
    d' = d ∨ ∃ n, existsIn d n = false ∧ d' = insertFile d n src.2 := by
  simp only [moveRenameV2] at h
  split at h
  · split at h
    · cases h
      exact Or.inl rfl
    · split at h
      · exact absurd h (by simp)
      next n hff =>
        cases h
        exact Or.inr ⟨n, (firstFreeV2_spec d _ _ fuel 1 n hff).1, rfl⟩
  next hex =>
    cases h
    refine Or.inr ⟨getTargetFilename src.1, ?_, rfl⟩
    cases hb : existsIn d (getTargetFilename src.1)
    · rfl
    · exact absurd hb hex

/-- The v1 resolver either leaves the destination unchanged (duplicate
delete, at the base name or at a candidate) or inserts the source under
a name that was free. -/
theorem moveRenameV1_cases (src : FileName × FsFile) (d : CatDir) (fuel : Nat)
    (d' : CatDir) (out : MoveOutcome)
    (h : moveRenameV1 src d fuel = some (d', out)) :
    d' = d ∨ ∃ n, existsIn d n = false ∧ d' = insertFile d n src.2 := by
  simp only [moveRenameV1] at h
  split at h
  · split at h
    · split at h
      · cases h
        exact Or.inl rfl
      · split at h
        · exact absurd h (by simp)
        · cases h
          exact Or.inl rfl
        next n hdis =>
          cases h
          refine Or.inr ⟨n, ?_, rfl⟩
          have := (disambigV1_spec d _ _ _ fuel 1 (false, n) hdis).2 rfl
          exact this.1
    · exact absurd h (by simp)
  next hex =>
    cases h
    refine Or.inr ⟨getTargetFilename src.1, ?_, rfl⟩
    cases hb : existsIn d (getTargetFilename src.1)
    · rfl
    · exact absurd hb hex

/-- Inserting under a free name preserves distinctness of file names. -/
theorem insertFile_files_nodup (d : CatDir) (n : FileName) (f : FsFile)
    (hfree : existsIn d n = false) (h : (d.files.map Prod.fst).Nodup) :
    ((insertFile d n f).files.map Prod.fst).Nodup := by
  unfold insertFile
  simp only [List.map_append]
  rw [List.nodup_append]
  refine ⟨h, by simp, ?_⟩
  intro x hx
  simp only [List.map_cons, List.map_nil, List.mem_singleton]
  intro hxn
  have hnone := (existsIn_false_parts d n hfree).1
  rcases List.mem_map.mp hx with ⟨p, hp, hpx⟩
  exact ((findFile_none_iff d n).mp hnone p hp) (hpx.trans hxn)

/-- The v2 resolver preserves distinctness of destination file names. -/
theorem moveRenameV2_files_nodup (src : FileName × FsFile) (d : CatDir)
    (fuel : Nat) (d' : CatDir) (out : MoveOutcome)
    (h : moveRenameV2 src d fuel = some (d', out))
    (hnd : (d.files.map Prod.fst).Nodup) :
    (d'.files.map Prod.fst).Nodup := by
  rcases moveRenameV2_cases src d fuel d' out h with rfl | ⟨n, hfree, rfl⟩
  · exact hnd
  · exact insertFile_files_nodup d n src.2 hfree hnd

/-- The v1 resolver preserves distinctness of destination file names. -/
theorem moveRenameV1_files_nodup (src : FileName × FsFile) (d : CatDir)
    (fuel : Nat) (d' : CatDir) (out : MoveOutcome)
    (h : moveRenameV1 src d fuel = some (d', out))
    (hnd : (d.files.map Prod.fst).Nodup) :
    (d'.files.map Prod.fst).Nodup := by
  rcases moveRenameV1_cases src d fuel d' out h with rfl | ⟨n, hfree, rfl⟩
  · exact hnd
  · exact insertFile_files_nodup d n src.2 hfree hnd

/-- Effect of one v2 file placement on the state skeleton. -/
theorem placeFileV2_shape (s : BaseState) (n : FileName) (f : FsFile)
    (fuel : Nat) (s' : BaseState) (out : MoveOutcome)
    (h : placeFileV2 s n f fuel = some (s', out)) :
    s'.rootFiles = s.rootFiles.eraseP (fun p => decide (p.1 = n)) ∧
    s'.dirs.map Prod.fst = s.dirs.map Prod.fst ∧
    (dirsNodup s → dirsNodup s') := by
  simp only [placeFileV2] at h
  split at h
  · exact absurd h (by simp)
  next d' out0 hmr =>
    cases h
    refine ⟨rfl, setDir_keys s _ d', ?_⟩
    intro hP p hp
    rcases mem_setList s.dirs (classifyV2 n) d' p hp with h1 | rfl
    · exact hP p h1
    · exact moveRenameV2_files_nodup _ _ _ _ _ hmr (getDir_files_nodup s _ hP)

/-- Effect of one v1 file placement on the state skeleton. -/
theorem placeFileV1_shape (s : BaseState) (n : FileName) (f : FsFile)
    (fuel : Nat) (s' : BaseState) (out : MoveOutcome)
    (h : placeFileV1 s n f fuel = some (s', out)) :
    s'.rootFiles = s.rootFiles.eraseP (fun p => decide (p.1 = n)) ∧
    s'.dirs.map Prod.fst = s.dirs.map Prod.fst ∧
    (dirsNodup s → dirsNodup s') := by
  simp only [placeFileV1] at h
  split at h
  · exact absurd h (by simp)
  next d' out0 hmr =>
    cases h
    refine ⟨rfl, setDir_keys s _ d', ?_⟩
    intro hP p hp
    rcases mem_setList s.dirs (classifyV1 n) d' p hp with h1 | rfl
    · exact hP p h1
    · exact moveRenameV1_files_nodup _ _ _ _ _ hmr (getDir_files_nodup s _ hP)

/-- The v2 file loop erases from the top level exactly the processed
(non-skipped) names, touches no directory name, and preserves
per-directory distinctness. -/
theorem processFilesV2_char (skipF skipD : List String) (fuel : Nat) :
    ∀ (snap : List (FileName × FsFile)) (s : BaseState) (c : RunCounts)
      (s' : BaseState) (c' : RunCounts),
      processFilesV2 skipF skipD fuel snap s c = some (s', c') →
      s'.rootFiles = snap.foldl
        (fun acc x =>
          if (skipF.contains x.1.name || skipD.contains x.1.name ||
              catNames.contains x.1.name) = true then acc
          else acc.eraseP (fun p => decide (p.1 = x.1))) s.rootFiles ∧
      s'.dirs.map Prod.fst = s.dirs.map Prod.fst ∧
      (dirsNodup s → dirsNodup s') := by
  intro snap
  induction snap with
  | nil =>
    intro s c s' c' h
    rw [processFilesV2] at h
    cases h
    exact ⟨rfl, rfl, fun hP => hP⟩
  | cons x rest ih =>
    obtain ⟨n, f⟩ := x
    intro s c s' c' h
    rw [processFilesV2] at h
    rw [List.foldl_cons]
    split at h
    next hskip =>
      rw [if_pos hskip]
      exact ih s c s' c' h
    next hskip =>
      rw [if_neg hskip]
      split at h
      · exact absurd h (by simp)
      next s2 w hplace =>
        obtain ⟨hp1, hp2, hp3⟩ := placeFileV2_shape s n f fuel s2 _ hplace
        obtain ⟨h1, h2, h3⟩ := ih s2 _ s' c' h
        refine ⟨?_, h2.trans hp2, fun hP => h3 (hp3 hP)⟩
        rw [h1, hp1]
      next s2 hplace =>
        obtain ⟨hp1, hp2, hp3⟩ := placeFileV2_shape s n f fuel s2 _ hplace
        obtain ⟨h1, h2, h3⟩ := ih s2 _ s' c' h
        refine ⟨?_, h2.trans hp2, fun hP => h3 (hp3 hP)⟩
        rw [h1, hp1]

/-- The v1 file loop erases every processed name from the top level. -/
theorem processFilesV1_char (fuel : Nat) :
    ∀ (snap : List (FileName × FsFile)) (s : BaseState) (c : RunCounts)
      (s' : BaseState) (c' : RunCounts),
      processFilesV1 fuel snap s c = some (s', c') →
      s'.rootFiles = snap.foldl
        (fun acc x => acc.eraseP (fun p => decide (p.1 = x.1))) s.rootFiles ∧
      s'.dirs.map Prod.fst = s.dirs.map Prod.fst ∧
      (dirsNodup s → dirsNodup s') := by
  intro snap
  induction snap with
  | nil =>
    intro s c s' c' h
    rw [processFilesV1] at h
    cases h
    exact ⟨rfl, rfl, fun hP => hP⟩
  | cons x rest ih =>
    obtain ⟨n, f⟩ := x
    intro s c s' c' h
    rw [processFilesV1] at h
    rw [List.foldl_cons]
    split at h
    · exact absurd h (by simp)
    next s2 w hplace =>
      obtain ⟨hp1, hp2, hp3⟩ := placeFileV1_shape s n f fuel s2 _ hplace
      obtain ⟨h1, h2, h3⟩ := ih s2 _ s' c' h
      refine ⟨?_, h2.trans hp2, fun hP => h3 (hp3 hP)⟩
      rw [h1, hp1]
    next s2 hplace =>
      obtain ⟨hp1, hp2, hp3⟩ := placeFileV1_shape s n f fuel s2 _ hplace
      obtain ⟨h1, h2, h3⟩ := ih s2 _ s' c' h
      refine ⟨?_, h2.trans hp2, fun hP => h3 (hp3 hP)⟩
      rw [h1, hp1]

/-- When every snapshot entry is skipped, the v2 file loop does
nothing. -/
theorem processFilesV2_skip_all (skipF skipD : List String) (fuel : Nat) :
    ∀ (snap : List (FileName × FsFile)) (s : BaseState) (c : RunCounts),
      (∀ x ∈ snap, (skipF.contains x.1.name || skipD.contains x.1.name ||
        catNames.contains x.1.name) = true) →
      processFilesV2 skipF skipD fuel snap s c = some (s, c) := by
  intro snap
  induction snap with
  | nil => intro s c _; rfl
  | cons x rest ih =>
    obtain ⟨n, f⟩ := x
    intro s c hall
    rw [processFilesV2]
    rw [if_pos (hall (n, f) (List.mem_cons_self _ _))]
    exact ih s c (fun y hy => hall y (List.mem_cons_of_mem _ hy))

/-- `move_folder` never changes the files of the destination. -/
theorem moveFolder_files (nm : String) (d : CatDir) (fuel : Nat) (d' : CatDir)
    (h : moveFolder nm d fuel = some d') : d'.files = d.files := by
  simp only [moveFolder] at h
  split at h
  · split at h
    · exact absurd h (by simp)
    · cases h; rfl
  · cases h; rfl

/-- The directory loop erases from the top level exactly the moved
(non-category, non-skipped) directory names, leaves the top-level files
alone, and preserves per-directory distinctness. -/
theorem processDirs_char (skipD : List String) (fuel : Nat) :
    ∀ (snap : List (String × CatDir)) (s : BaseState) (c : RunCounts)
      (s' : BaseState) (c' : RunCounts),
      "6 - FOLDERS" ∈ s.dirs.map Prod.fst →
      processDirs skipD fuel snap s c = some (s', c') →
      s'.rootFiles = s.rootFiles ∧
      s'.dirs.map Prod.fst = (snap.map Prod.fst).foldl
        (fun acc k => if (catNames.contains k || skipD.contains k) = true
          then acc else acc.eraseP (fun k2 => decide (k2 = k)))
        (s.dirs.map Prod.fst) ∧
      (dirsNodup s → dirsNodup s') := by
  intro snap
  induction snap with
  | nil =>
    intro s c s' c' _ h
    rw [processDirs] at h
    cases h
    exact ⟨rfl, rfl, fun hP => hP⟩
  | cons x rest ih =>
    obtain ⟨nm, dd⟩ := x
    intro s c s' c' hF h
    simp only [processDirs] at h
    simp only [List.map_cons, List.foldl_cons]
    split at h
    next hmv =>
      simp only [Bool.and_eq_true, Bool.not_eq_true'] at hmv
      have hkeep : (catNames.contains nm || skipD.contains nm) = false := by
        rw [hmv.1, hmv.2]; rfl
      rw [hkeep]
      simp only [Bool.false_eq_true, if_false]
      have hens : ensureDir s "6 - FOLDERS" = s :=
        ensureDir_id s _ ((hasDir_iff s _).mpr hF)
      rw [hens] at h
      split at h
      · exact absurd h (by simp)
      next d' hmf =>
        set s2 : BaseState := { setDir s "6 - FOLDERS" d' with
          dirs := (setDir s "6 - FOLDERS" d').dirs.eraseP
            (fun p => decide (p.1 = nm)) } with hs2
        have hkeys2 : s2.dirs.map Prod.fst =
            (s.dirs.map Prod.fst).eraseP (fun k2 => decide (k2 = nm)) := by
          rw [hs2]
          show ((setDir s "6 - FOLDERS" d').dirs.eraseP
            (fun p => decide (p.1 = nm))).map Prod.fst = _
          rw [map_fst_eraseP_key, setDir_keys]
        have hFne : "6 - FOLDERS" ≠ nm := by
          intro he
          rw [← he] at hmv
          have : catNames.contains "6 - FOLDERS" = true := by decide
          rw [this] at hmv
          cases hmv.1
        have hF2 : "6 - FOLDERS" ∈ s2.dirs.map Prod.fst := by
          rw [hkeys2]
          exact mem_eraseP_of_pred_false _ _ _ (by simp [hFne]) hF
        have hroot2 : s2.rootFiles = s.rootFiles := rfl
        have hP2 : dirsNodup s → dirsNodup s2 := by
          intro hP p hp
          rw [hs2] at hp
          have hp' : p ∈ (setDir s "6 - FOLDERS" d').dirs :=
            (List.eraseP_sublist _).subset hp
          rcases mem_setList s.dirs "6 - FOLDERS" d' p hp' with h1 | rfl
          · exact hP p h1
          · have : d'.files = (getDir s "6 - FOLDERS").files :=
              moveFolder_files nm _ fuel d' hmf
            show (d'.files.map Prod.fst).Nodup
            rw [this]
            exact getDir_files_nodup s _ hP
        obtain ⟨h1, h2, h3⟩ := ih s2 _ s' c' hF2 h
        exact ⟨h1.trans hroot2, by rw [h2, hkeys2],
          fun hP => h3 (hP2 hP)⟩
    next hmv =>
      have hkeep : (catNames.contains nm || skipD.contains nm) = true := by
        by_cases ha : catNames.contains nm = true
        · rw [ha]; rfl
        · by_cases hb : skipD.contains nm = true
          · rw [hb]; simp
          · exfalso
            apply hmv
            simp only [Bool.and_eq_true, Bool.not_eq_true']
            exact ⟨by simpa using ha, by simpa using hb⟩
      rw [hkeep]
      simp only [if_true]
      exact ih s c s' c' hF h

/-- When every snapshot entry is a category folder (or skipped), the
directory loop does nothing. -/
theorem processDirs_skip_all (skipD : List String) (fuel : Nat) :
    ∀ (snap : List (String × CatDir)) (s : BaseState) (c : RunCounts),
      (∀ x ∈ snap, (catNames.contains x.1 || skipD.contains x.1) = true) →
      processDirs skipD fuel snap s c = some (s, c) := by
  intro snap
  induction snap with
  | nil => intro s c _; rfl
  | cons x rest ih =>
    obtain ⟨nm, dd⟩ := x
    intro s c hall
    rw [processDirs]
    rw [if_neg ?_]
    · exact ih s c (fun y hy => hall y (List.mem_cons_of_mem _ hy))
    · intro hx
      simp only [Bool.and_eq_true, Bool.not_eq_true'] at hx
      have := hall (nm, dd) (List.mem_cons_self _ _)
      simp only at this
      rw [hx.1, hx.2] at this
      cases this

/-- The v2 refinement loop erases from `10 - OTHERS` exactly the
processed curated-extension files, touches no top-level file and no
directory name, and preserves per-directory distinctness. -/
theorem refineLoopV2_char (fuel : Nat) :
    ∀ (snap : List (FileName × FsFile)) (s : BaseState) (c : RunCounts)
      (s' : BaseState) (c' : RunCounts),
      "10 - OTHERS" ∈ s.dirs.map Prod.fst →
      refineLoopV2 fuel snap s c = some (s', c') →
      s'.rootFiles = s.rootFiles ∧
      s'.dirs.map Prod.fst = s.dirs.map Prod.fst ∧
      (getDir s' "10 - OTHERS").files = snap.foldl
        (fun acc x => if (refineExts.contains (lowerStr x.1.ext)) = true
          then acc.eraseP (fun p => decide (p.1 = x.1)) else acc)
        ((getDir s "10 - OTHERS").files) ∧
      (dirsNodup s → dirsNodup s') := by
  intro snap
  induction snap with
  | nil =>
    intro s c s' c' _ h
    rw [refineLoopV2] at h
    cases h
    exact ⟨rfl, rfl, rfl, fun hP => hP⟩
  | cons x rest ih =>
    obtain ⟨n, f⟩ := x
    intro s c s' c' hO h
    simp only [refineLoopV2] at h
    rw [List.foldl_cons]
    split at h
    next hre =>
      rw [if_pos hre]
      split at h
      · exact absurd h (by simp)
      next d' out hmr =>
        have hOTH1 : getDir (setDir s "7 - CODING" d') "10 - OTHERS" =
            getDir s "10 - OTHERS" :=
          getDir_setDir_ne s "7 - CODING" "10 - OTHERS" d' (by decide)
        set s1 : BaseState := setDir s "7 - CODING" d' with hs1
        set o' : CatDir := ⟨(getDir s1 "10 - OTHERS").files.eraseP
          (fun p => decide (p.1 = n)), (getDir s1 "10 - OTHERS").dirs⟩ with ho'
        set s2 : BaseState := setDir s1 "10 - OTHERS" o' with hs2
        have hkeys1 : s1.dirs.map Prod.fst = s.dirs.map Prod.fst :=
          setDir_keys s _ d'
        have hO1 : "10 - OTHERS" ∈ s1.dirs.map Prod.fst := by
          rw [hkeys1]; exact hO
        have hkeys2 : s2.dirs.map Prod.fst = s.dirs.map Prod.fst := by
          rw [hs2, setDir_keys, hkeys1]
        have hO2 : "10 - OTHERS" ∈ s2.dirs.map Prod.fst := by
          rw [hkeys2]; exact hO
        have hget2 : getDir s2 "10 - OTHERS" = o' :=
          getDir_setDir_self s1 "10 - OTHERS" o' hO1
        have hroot2 : s2.rootFiles = s.rootFiles := rfl
        have hP2 : dirsNodup s → dirsNodup s2 := by
          intro hP p hp
          rw [hs2] at hp
          rcases mem_setList s1.dirs "10 - OTHERS" o' p hp with h1 | rfl
          · rw [hs1] at h1
            rcases mem_setList s.dirs "7 - CODING" d' p h1 with h2 | rfl
            · exact hP p h2
            · exact moveRenameV2_files_nodup _ _ _ _ _ hmr
                (getDir_files_nodup s _ hP)
          · show (o'.files.map Prod.fst).Nodup
            rw [ho']
            show (((getDir s1 "10 - OTHERS").files.eraseP
              (fun p => decide (p.1 = n))).map Prod.fst).Nodup
            rw [map_fst_eraseP_key]
            refine List.Nodup.sublist (List.eraseP_sublist _) ?_
            rw [hs1, hOTH1]
            exact getDir_files_nodup s _ hP
        -- the recursion is on the split-generated branch of the outcome
        have hrec : refineLoopV2 fuel rest s2
            (match out with
             | MoveOutcome.movedTo _ =>
               { c with filesMoved := c.filesMoved + 1 }
             | MoveOutcome.deletedDup =>
               { c with srcDeleted := c.srcDeleted + 1 }) = some (s', c') := by
          cases out with
          | movedTo m => exact h
          | deletedDup => exact h
        obtain ⟨h1, h2, h3, h4⟩ := ih s2 _ s' c' hO2 hrec
        refine ⟨h1.trans hroot2, h2.trans hkeys2, ?_, fun hP => h4 (hP2 hP)⟩
        rw [h3, hget2, ho']
        show List.foldl _ ((getDir s1 "10 - OTHERS").files.eraseP
          (fun p => decide (p.1 = n))) rest = _
        rw [hs1, hOTH1]
    next hre =>
      rw [if_neg hre]
      exact ih s c s' c' hO h

/-- When no snapshot entry has a curated extension, the v2 refinement
loop does nothing. -/
theorem refineLoopV2_skip_all (fuel : Nat) :
    ∀ (snap : List (FileName × FsFile)) (s : BaseState) (c : RunCounts),
      (∀ x ∈ snap, refineExts.contains (lowerStr x.1.ext) = false) →
      refineLoopV2 fuel snap s c = some (s, c) := by
  intro snap
  induction snap with
  | nil => intro s c _; rfl
  | cons x rest ih =>
    obtain ⟨n, f⟩ := x
    intro s c hall
    rw [refineLoopV2]
    rw [if_neg ?_]
    · exact ih s c (fun y hy => hall y (List.mem_cons_of_mem _ hy))
    · have := hall (n, f) (List.mem_cons_self _ _)
      simp only at this
      rw [this]
      simp

theorem ensureFolders_rootFiles (s : BaseState) :
    (ensureFolders s).rootFiles = s.rootFiles :=
  foldl_ensure_rootFiles catNames s

theorem ensureFolders_mem_cats (s : BaseState) :
    ∀ cn ∈ catNames, cn ∈ (ensureFolders s).dirs.map Prod.fst :=
  fun cn hc => foldl_ensure_mem catNames s cn hc

theorem ensureFolders_keys_nodup (s : BaseState)
    (h : (s.dirs.map Prod.fst).Nodup) :
    ((ensureFolders s).dirs.map Prod.fst).Nodup :=
  foldl_ensure_keys_nodup catNames s h

theorem ensureFolders_dirsNodup (s : BaseState) (h : dirsNodup s) :
    dirsNodup (ensureFolders s) :=
  foldl_ensure_dirsNodup catNames s h

theorem contains_of_mem_str (l : List String) (a : String) (h : a ∈ l) :
    l.contains a = true :=
  List.elem_eq_true_of_mem h

theorem mem_of_contains_str (l : List String) (a : String)
    (h : l.contains a = true) : a ∈ l :=
  List.mem_of_elem_eq_true h

/-- Idempotence of the v2 organize action (no skips): after a completed
run, a second run changes nothing and performs zero file moves, zero
folder moves and zero deletions, for any fuel. -/
theorem organizeV2_idempotent (s : BaseState) (fuel : Nat)
    (s1 : BaseState) (c : RunCounts) (hwf : wfState s)
    (h : organizeV2 [] [] s fuel = some (s1, c)) :
    ∀ fuel2, organizeV2 [] [] s1 fuel2 = some (s1, ⟨0, 0, 0⟩) := by
  obtain ⟨hw1, hw2, hw3⟩ := hwf
  -- dissect the first run
  simp only [organizeV2] at h
  split at h
  · exact absurd h (by simp)
  next sA cA hfiles =>
    split at h
    · exact absurd h (by simp)
    next sB cB hdirs =>
      -- facts about the ensured state
      have hroot0 : (ensureFolders s).rootFiles = s.rootFiles :=
        ensureFolders_rootFiles s
      have hF0 : "6 - FOLDERS" ∈ (ensureFolders s).dirs.map Prod.fst :=
        ensureFolders_mem_cats s _ (by decide)
      have hnd0 : ((ensureFolders s).dirs.map Prod.fst).Nodup :=
        ensureFolders_keys_nodup s hw2
      have hP0 : dirsNodup (ensureFolders s) := ensureFolders_dirsNodup s hw3
      -- facts after the file loop
      obtain ⟨hA1, hA2, hA3⟩ :=
        processFilesV2_char [] [] fuel (ensureFolders s).rootFiles
          (ensureFolders s) ⟨0, 0, 0⟩ sA cA hfiles
      have hrootA : sA.rootFiles = s.rootFiles.filter
          (fun x => ([] : List String).contains x.1.name ||
            ([] : List String).contains x.1.name ||
            catNames.contains x.1.name) := by
        rw [hA1, hroot0]
        exact foldl_step_filter_pairs _
          (fun x => ([] : List String).contains x.1.name ||
            ([] : List String).contains x.1.name ||
            catNames.contains x.1.name)
          (fun acc x => rfl) s.rootFiles hw1
      have hPA : dirsNodup sA := hA3 hP0
      have hFA : "6 - FOLDERS" ∈ sA.dirs.map Prod.fst := by rw [hA2]; exact hF0
      have hndA : (sA.dirs.map Prod.fst).Nodup := by rw [hA2]; exact hnd0
      -- facts after the directory loop
      obtain ⟨hB1, hB2, hB3⟩ :=
        processDirs_char [] fuel sA.dirs sA cA sB cB hFA hdirs
      have hkeysB : sB.dirs.map Prod.fst = (sA.dirs.map Prod.fst).filter
          (fun k => catNames.contains k || ([] : List String).contains k) := by
        rw [hB2]
        exact foldl_step_filter_plain _
          (fun k => catNames.contains k || ([] : List String).contains k)
          (fun acc x => rfl) (sA.dirs.map Prod.fst) hndA
      have hPB : dirsNodup sB := hB3 hPA
      have hcatB : ∀ cn ∈ catNames, cn ∈ sB.dirs.map Prod.fst := by
        intro cn hc
        rw [hkeysB]
        refine List.mem_filter.mpr ⟨?_, ?_⟩
        · rw [hA2]; exact ensureFolders_mem_cats s cn hc
        · rw [contains_of_mem_str catNames cn hc]; rfl
      -- dissect the refinement pass of the first run
      have hOB : "10 - OTHERS" ∈ sB.dirs.map Prod.fst :=
        hcatB _ (by decide)
      have hCB : "7 - CODING" ∈ sB.dirs.map Prod.fst :=
        hcatB _ (by decide)
      rw [refineSortingV2, if_pos (by
        rw [(hasDir_iff sB "10 - OTHERS").mpr hOB,
          (hasDir_iff sB "7 - CODING").mpr hCB]; rfl)] at h
      obtain ⟨hR1, hR2, hR3, hR4⟩ :=
        refineLoopV2_char fuel (getDir sB "10 - OTHERS").files sB cB s1 c
          hOB h
      have hothers1 : (getDir s1 "10 - OTHERS").files =
          (getDir sB "10 - OTHERS").files.filter
            (fun x => !(refineExts.contains (lowerStr x.1.ext))) := by
        rw [hR3]
        exact foldl_step_filter_pairs
          (fun acc x => if refineExts.contains (lowerStr x.1.ext) = true
            then acc.eraseP (fun p => decide (p.1 = x.1)) else acc)
          (fun x => !(refineExts.contains (lowerStr x.1.ext)))
          (fun acc x => by
            cases hc : refineExts.contains (lowerStr x.1.ext) <;> simp [hc])
          (getDir sB "10 - OTHERS").files (getDir_files_nodup sB _ hPB)
      -- state skeleton of the final state
      have hroot1 : s1.rootFiles = sA.rootFiles := hR1.trans hB1
      have hkeys1 : s1.dirs.map Prod.fst = sB.dirs.map Prod.fst := hR2
      have hcat1 : ∀ cn ∈ catNames, cn ∈ s1.dirs.map Prod.fst := by
        intro cn hc; rw [hkeys1]; exact hcatB cn hc
      -- the second run
      intro fuel2
      have hens1 : ensureFolders s1 = s1 :=
        ensureFolders_id s1 (fun cn hc => (hasDir_iff s1 cn).mpr (hcat1 cn hc))
      have hstep2 : processFilesV2 [] [] fuel2 s1.rootFiles s1 ⟨0, 0, 0⟩ =
          some (s1, ⟨0, 0, 0⟩) := by
        apply processFilesV2_skip_all
        intro x hx
        rw [hroot1, hrootA] at hx
        exact (List.mem_filter.mp hx).2
      have hstep3 : processDirs [] fuel2 s1.dirs s1 ⟨0, 0, 0⟩ =
          some (s1, ⟨0, 0, 0⟩) := by
        apply processDirs_skip_all
        intro x hx
        have hx1 : x.1 ∈ s1.dirs.map Prod.fst := List.mem_map_of_mem _ hx
        rw [hkeys1, hkeysB] at hx1
        exact (List.mem_filter.mp hx1).2
      have hstep4 : refineSortingV2 s1 fuel2 ⟨0, 0, 0⟩ =
          some (s1, ⟨0, 0, 0⟩) := by
        rw [refineSortingV2, if_pos (by
          rw [(hasDir_iff s1 "10 - OTHERS").mpr (hcat1 _ (by decide)),
            (hasDir_iff s1 "7 - CODING").mpr (hcat1 _ (by decide))]; rfl)]
        apply refineLoopV2_skip_all
        intro x hx
        rw [hothers1] at hx
        have := (List.mem_filter.mp hx).2
        cases hc : refineExts.contains (lowerStr x.1.ext)
        · rfl
        · rw [hc] at this; cases this
      simp only [organizeV2]
      rw [hens1, hstep2]
      show (match processDirs [] fuel2 s1.dirs s1 ⟨0, 0, 0⟩ with
        | none => none
        | some (s2, c2) => refineSortingV2 s2 fuel2 c2) = some (s1, ⟨0, 0, 0⟩)
      rw [hstep3]
      exact hstep4

/-- Idempotence of the v1 organize pass: after a completed run, a second
run changes nothing and performs zero file moves, zero folder moves and
zero deletions, for any fuel. -/
theorem organizeV1_idempotent (s : BaseState) (fuel : Nat)
    (s1 : BaseState) (c : RunCounts) (hwf : wfState s)
    (h : organizeV1 s fuel = some (s1, c)) :
    ∀ fuel2, organizeV1 s1 fuel2 = some (s1, ⟨0, 0, 0⟩) := by
  obtain ⟨hw1, hw2, hw3⟩ := hwf
  simp only [organizeV1] at h
  split at h
  · exact absurd h (by simp)
  next sA cA hfiles =>
    split at h
    · exact absurd h (by simp)
    next sB cB hdirs =>
      have hroot0 : (ensureFolders s).rootFiles = s.rootFiles :=
        ensureFolders_rootFiles s
      have hF0 : "6 - FOLDERS" ∈ (ensureFolders s).dirs.map Prod.fst :=
        ensureFolders_mem_cats s _ (by decide)
      have hnd0 : ((ensureFolders s).dirs.map Prod.fst).Nodup :=
        ensureFolders_keys_nodup s hw2
      have hP0 : dirsNodup (ensureFolders s) := ensureFolders_dirsNodup s hw3
      obtain ⟨hA1, hA2, hA3⟩ :=
        processFilesV1_char fuel (ensureFolders s).rootFiles
          (ensureFolders s) ⟨0, 0, 0⟩ sA cA hfiles
      have hrootA : sA.rootFiles = [] := by
        rw [hA1, hroot0]
        have hfold := foldl_step_filter_pairs
          (fun acc (x : FileName × FsFile) =>
            acc.eraseP (fun p => decide (p.1 = x.1)))
          (fun _ => false)
          (fun acc x => by simp)
          s.rootFiles hw1
        rw [hfold]
        simp
      have hPA : dirsNodup sA := hA3 hP0
      have hFA : "6 - FOLDERS" ∈ sA.dirs.map Prod.fst := by rw [hA2]; exact hF0
      have hndA : (sA.dirs.map Prod.fst).Nodup := by rw [hA2]; exact hnd0
      obtain ⟨hB1, hB2, hB3⟩ :=
        processDirs_char [] fuel sA.dirs sA cA sB cB hFA hdirs
      have hkeysB : sB.dirs.map Prod.fst = (sA.dirs.map Prod.fst).filter
          (fun k => catNames.contains k || ([] : List String).contains k) := by
        rw [hB2]
        exact foldl_step_filter_plain _
          (fun k => catNames.contains k || ([] : List String).contains k)
          (fun acc x => rfl) (sA.dirs.map Prod.fst) hndA
      have hcatB : ∀ cn ∈ catNames, cn ∈ sB.dirs.map Prod.fst := by
        intro cn hc
        rw [hkeysB]
        refine List.mem_filter.mpr ⟨?_, ?_⟩
        · rw [hA2]; exact ensureFolders_mem_cats s cn hc
        · rw [contains_of_mem_str catNames cn hc]; rfl
      have h9B : hasDir sB "9 - OTHERS" = false := by
        cases hb : hasDir sB "9 - OTHERS"
        · rfl
        · exfalso
          have hmem := (hasDir_iff sB _).mp hb
          rw [hkeysB] at hmem
          exact absurd (List.mem_filter.mp hmem).2 (by decide)
      rw [refineSortingV1, if_neg (by simp [h9B])] at h
      cases h
      intro fuel2
      have hens1 : ensureFolders s1 = s1 :=
        ensureFolders_id s1
          (fun cn hc => (hasDir_iff s1 cn).mpr (hcatB cn hc))
      have hroot1 : s1.rootFiles = [] := hB1.trans hrootA
      have hstep3 : processDirs [] fuel2 s1.dirs s1 ⟨0, 0, 0⟩ =
          some (s1, ⟨0, 0, 0⟩) := by
        apply processDirs_skip_all
        intro x hx
        have hx1 : x.1 ∈ s1.dirs.map Prod.fst := List.mem_map_of_mem _ hx
        rw [hkeysB] at hx1
        exact (List.mem_filter.mp hx1).2
      have hstep4 : refineSortingV1 s1 fuel2 ⟨0, 0, 0⟩ =
          some (s1, ⟨0, 0, 0⟩) := by
        rw [refineSortingV1, if_neg (by simp [h9B])]
      simp only [organizeV1]
      rw [hens1, hroot1]
      rw [show processFilesV1 fuel2 [] s1 ⟨0, 0, 0⟩ =
        some (s1, ⟨0, 0, 0⟩) from rfl]
      show (match processDirs [] fuel2 s1.dirs s1 ⟨0, 0, 0⟩ with
        | none => none
        | some (s2, c2) => refineSortingV1 s2 fuel2 c2) = some (s1, ⟨0, 0, 0⟩)
      rw [hstep3]
      exact hstep4

section ClaimC6

/-- C6, confirmed: running the organize pass twice in succession is
idempotent.  On a well-formed tree (distinct names, as on a real
filesystem), whenever a run of v1 `main` (or of the v2 organize action
with empty skip lists) completes, a second run returns the very same
state and performs zero file moves, zero folder moves, and zero
duplicate deletions — and this for any loop fuel, since the second run
never enters a disambiguation loop. -/
theorem c6_organize_twice_idempotent :
    (∀ (s : BaseState) (fuel : Nat) (s1 : BaseState) (c : RunCounts),
      wfState s → organizeV1 s fuel = some (s1, c) →
      ∀ fuel2, organizeV1 s1 fuel2 = some (s1, ⟨0, 0, 0⟩)) ∧
    (∀ (s : BaseState) (fuel : Nat) (s1 : BaseState) (c : RunCounts),
      wfState s → organizeV2 [] [] s fuel = some (s1, c) →
      ∀ fuel2, organizeV2 [] [] s1 fuel2 = some (s1, ⟨0, 0, 0⟩)) :=
  ⟨fun s fuel s1 c hwf h => organizeV1_idempotent s fuel s1 c hwf h,
   fun s fuel s1 c hwf h => organizeV2_idempotent s fuel s1 c hwf h⟩

/-- The state consisting of exactly the ten empty category folders. -/
def catsOnlyState : BaseState :=
  ⟨[], [("1 - ARCHIVES", ⟨[], []⟩), ("2 - DOCUMENTS", ⟨[], []⟩),
    ("3 - IMAGES", ⟨[], []⟩), ("4 - PDFs", ⟨[], []⟩),
    ("5 - VIDEOS", ⟨[], []⟩), ("6 - FOLDERS", ⟨[], []⟩),
    ("7 - CODING", ⟨[], []⟩), ("8 - INSTALLERS & APPLICATIONS", ⟨[], []⟩),
    ("9 - SECURITY", ⟨[], []⟩), ("10 - OTHERS", ⟨[], []⟩)]⟩

/-- Witness for `c6_organize_twice_idempotent` at a concrete tree. -/
theorem c6_organize_twice_idempotent_witness :
    organizeV1 catsOnlyState 0 = some (catsOnlyState, ⟨0, 0, 0⟩) ∧
    organizeV2 [] [] catsOnlyState 0 = some (catsOnlyState, ⟨0, 0, 0⟩) := by
  constructor
  · exact c6_organize_twice_idempotent.1 ⟨[], []⟩ 1 catsOnlyState ⟨0, 0, 0⟩
      (by decide) (by decide) 0
  · exact c6_organize_twice_idempotent.2 ⟨[], []⟩ 1 catsOnlyState ⟨0, 0, 0⟩
      (by decide) (by decide) 0

end ClaimC6

end FolderOrganizer
